import Mathlib

/-!
# Detective Quest: clue index, suspect directory and exploration

A shallow embedding of `src/algoritmos_avancados.c`.

* A C string is the list of its bytes before the terminating NUL, each byte
  read as `unsigned char`; `IsCStr` says that every byte is in `1..255`.
* A `const char *` that the code tests against `NULL` is an `Option CStr`.
* A `PistaNode *` is a `PistaNode` tree, `NULL` being `PistaNode.nulo`.
* A chain of `HashEntry` is a list, `NULL` being `[]`; the table is the list
  of its `HASH_TABLE_SIZE` chains.
* Allocation failure ends the process (`exit`), so every function is modelled
  on the path where `malloc` succeeds.
-/

namespace DetectiveQuest

/-! ## Constants -/

def MAX_NOME : Nat := 60
def MAX_PISTA : Nat := 120
def HASH_TABLE_SIZE : Nat := 101

/-! ## C strings -/

/-- Bytes of a C string before its terminator, as `unsigned char` values. -/
abbrev CStr := List Nat

/-- Every byte of a C string is a non-NUL `unsigned char`. -/
def IsCStr (s : CStr) : Prop := ∀ b ∈ s, 0 < b ∧ b < 256

instance (s : CStr) : Decidable (IsCStr s) := by
  unfold IsCStr; infer_instance

/-- Library `strcmp`: the difference of the first two bytes that differ, read
as `unsigned char`, the terminator counting as `0`.  The C standard fixes the
sign of the result only, and the callers look at nothing else. -/
def strcmp : CStr → CStr → Int
  | [], [] => 0
  | [], y :: _ => 0 - (y : Int)
  | x :: _, [] => (x : Int) - 0
  | x :: xs, y :: ys => if x ≠ y then (x : Int) - (y : Int) else strcmp xs ys

/-- Library `tolower` in the "C" locale (the program never calls `setlocale`). -/
def tolower (c : Nat) : Nat := if 65 ≤ c ∧ c ≤ 90 then c + 32 else c

/-- Source `strcmpIgnoreCase`: `*a` on an exhausted string reads the NUL. -/
def strcmpIgnoreCase : CStr → CStr → Int
  | x :: xs, y :: ys =>
    let ca := tolower x
    let cb := tolower y
    if ca ≠ cb then (ca : Int) - (cb : Int) else strcmpIgnoreCase xs ys
  | a, b => (tolower (a.headD 0) : Int) - (tolower (b.headD 0) : Int)

/-! ## Clue index (binary search tree) -/

/-- Source `PistaNode *`: `nulo` is `NULL`. -/
inductive PistaNode where
  | nulo : PistaNode
  | no (pista : CStr) (esq dir : PistaNode) : PistaNode
  deriving DecidableEq, Repr

/-- Source `criarPistaNode`: a fresh leaf holding a copy of the text. -/
def criarPistaNode (texto : CStr) : PistaNode := .no texto .nulo .nulo

/-- Source `inserirPistaRec`. -/
def inserirPistaRec (raiz : PistaNode) (texto : Option CStr) : PistaNode :=
  match texto with
  | none => raiz
  | some t =>
    if t = [] then raiz
    else
      match raiz with
      | .nulo => criarPistaNode t
      | .no pista esq dir =>
        let cmp := strcmp t pista
        if cmp < 0 then .no pista (inserirPistaRec esq (some t)) dir
        else if cmp > 0 then .no pista esq (inserirPistaRec dir (some t))
        else .no pista esq dir

/-- Source `inserirPista`: the new value of `*raizRef`. -/
def inserirPista (raizRef : PistaNode) (texto : Option CStr) : PistaNode :=
  match texto with
  | none => raizRef
  | some t => if t = [] then raizRef else inserirPistaRec raizRef (some t)

/-- Source `exibirPistasRec`: the texts in the order in which they are printed. -/
def exibirPistasRec : PistaNode → List CStr
  | .nulo => []
  | .no pista esq dir => exibirPistasRec esq ++ pista :: exibirPistasRec dir

/-- The tree reached from `raiz` by inserting the texts one by one. -/
def inserirTodas (raiz : PistaNode) (textos : List CStr) : PistaNode :=
  textos.foldl (fun r t => inserirPista r (some t)) raiz

/-! ## Suspect directory (hash table with chaining) -/

/-- Width of `unsigned long` on the target (LP64). -/
def ULONG_BITS : Nat := 64

/-- Source `hash_djb2`: `hash = ((hash << 5) + hash) + c` in `unsigned long`
arithmetic, over the bytes of the string up to its terminator. -/
def hash_djb2 (str : CStr) : Nat :=
  str.foldl
    (fun hash c => (((hash <<< 5) % 2 ^ ULONG_BITS + hash) % 2 ^ ULONG_BITS + c) % 2 ^ ULONG_BITS)
    5381

/-- Source `HashEntry`, without its `proximo` link: a chain is a list of
entries.  `suspeito` is what `strdup_s` returned, `NULL` for a `NULL` argument. -/
structure HashEntry where
  chave : CStr
  suspeito : Option CStr
  deriving DecidableEq, Repr

/-- Source `HashTable`: the array `tabela` of chain heads. -/
structure HashTable where
  tabela : List (List HashEntry)
  deriving DecidableEq, Repr

/-- Source `iniciarHashTable`: every one of the slots is overwritten with
`NULL`, whatever the table held before. -/
def iniciarHashTable : HashTable := ⟨List.replicate HASH_TABLE_SIZE []⟩

/-- Source `inserirHash`: the new entry goes to the head of its chain. -/
def inserirHash (ht : HashTable) (pista suspeito : Option CStr) : HashTable :=
  match pista with
  | none => ht
  | some p =>
    if p = [] then ht
    else
      let h := hash_djb2 p % HASH_TABLE_SIZE
      let entry : HashEntry := { chave := p, suspeito := suspeito }
      ⟨ht.tabela.set h (entry :: ht.tabela.getD h [])⟩

/-- The `while (e)` loop of source `buscarHash` over one chain. -/
def buscarCadeia : List HashEntry → CStr → Option CStr
  | [], _ => none
  | e :: proximo, pista =>
    if strcmp e.chave pista = 0 then e.suspeito else buscarCadeia proximo pista

/-- Source `buscarHash`: `none` is the `NULL` result. -/
def buscarHash (ht : HashTable) (pista : Option CStr) : Option CStr :=
  match pista with
  | none => none
  | some p =>
    let h := hash_djb2 p % HASH_TABLE_SIZE
    buscarCadeia (ht.tabela.getD h []) p

/-- One call of `inserirHash` with a clue text and a suspect name. -/
abbrev Chamada := CStr × CStr

/-- The table after a sequence of `inserirHash` calls, first call first. -/
def inserirChamadas (ht : HashTable) (chamadas : List Chamada) : HashTable :=
  chamadas.foldl (fun t c => inserirHash t (some c.1) (some c.2)) ht

/-- One call of `inserirHash` as the function receives it: each of the two
pointers may be `NULL`. -/
abbrev ChamadaGeral := Option CStr × Option CStr

/-- The table after a sequence of `inserirHash` calls on any arguments, first
call first. -/
def inserirChamadasGerais (ht : HashTable) (chamadas : List ChamadaGeral) : HashTable :=
  chamadas.foldl (fun t c => inserirHash t c.1 c.2) ht

/-! ## Accusation count -/

/-- Source `contarPistasParaSuspeitoRec`.  The count is a C `int`; it never
exceeds the number of nodes of the tree. -/
def contarPistasParaSuspeitoRec : PistaNode → HashTable → CStr → Nat
  | .nulo, _, _ => 0
  | .no pista esq dir, ht, suspeitoAlvo =>
    let count := 0
    let count := count + contarPistasParaSuspeitoRec esq ht suspeitoAlvo
    let count :=
      match buscarHash ht (some pista) with
      | some sus => if strcmpIgnoreCase sus suspeitoAlvo = 0 then count + 1 else count
      | none => count
    count + contarPistasParaSuspeitoRec dir ht suspeitoAlvo

/-- Source `contarPistasParaSuspeito`. -/
def contarPistasParaSuspeito (raiz : PistaNode) (ht : HashTable)
    (suspeitoAlvo : Option CStr) : Nat :=
  match raiz, suspeitoAlvo with
  | .nulo, _ => 0
  | _, none => 0
  | raiz, some alvo => contarPistasParaSuspeitoRec raiz ht alvo

/-! ## Room map and exploration -/

/-- Source `Sala`.  The rooms live in a heap (a list); a `Sala *` is an index
into it and `NULL` is `none`.  `nome` and `pista` are the C strings held by
the two character arrays. -/
structure Sala where
  nome : CStr
  pista : CStr
  esquerda : Option Nat
  direita : Option Nat
  deriving DecidableEq, Repr

/-- Source `criarSala`: `strncpy` of at most `MAX - 1` bytes, then a NUL. -/
def criarSala (nome : CStr) (pista : Option CStr) : Sala :=
  { nome := nome.take (MAX_NOME - 1)
    pista :=
      match pista with
      | some p => if p ≠ [] then p.take (MAX_PISTA - 1) else []
      | none => []
    esquerda := none
    direita := none }

/-- What one pass of the `while (1)` loop of `explorarSalasComPistas` works
on: the rooms, the current room and the clue index. -/
structure Estado where
  mapa : List Sala
  atual : Nat
  arvorePistas : PistaNode
  deriving DecidableEq, Repr

/-- Lines 212-220 of `explorarSalasComPistas`: on entering a room its clue,
when there is one, goes into the clue index and is cleared in the room. -/
def entrarSala (s : Sala) (arvorePistas : PistaNode) : Sala × PistaNode :=
  if s.pista.length > 0 then
    ({ s with pista := [] }, inserirPista arvorePistas (some s.pista))
  else
    (s, arvorePistas)

/-- Outcome of the choice at the end of one pass of the loop. -/
inductive Escolha where
  | continua (atual : Nat) : Escolha
  | encerra : Escolha
  deriving DecidableEq, Repr

/-- Lines 229-248 of `explorarSalasComPistas`.  `entrada` is the character read
by `scanf(" %c")` as an `unsigned char`, or `none` when `scanf` read nothing. -/
def escolher (s : Sala) (atual : Nat) (entrada : Option Nat) : Escolha :=
  match entrada with
  | none => .continua atual
  | some c =>
    let opcao := tolower c
    if opcao = 101 then
      match s.esquerda with
      | some e => .continua e
      | none => .continua atual
    else if opcao = 100 then
      match s.direita with
      | some d => .continua d
      | none => .continua atual
    else if opcao = 115 then .encerra
    else .continua atual

/-- Outcome of one pass of the loop: the loop goes on in the new state, or the
function returns leaving the new state behind. -/
inductive Passo where
  | continua (e : Estado) : Passo
  | retorna (e : Estado) : Passo
  deriving DecidableEq, Repr

/-- One pass of the `while (1)` loop.  `none` when `atual` points at no room. -/
def passo (e : Estado) (entrada : Option Nat) : Option Passo :=
  match e.mapa[e.atual]? with
  | none => none
  | some s =>
    let r := entrarSala s e.arvorePistas
    let mapa := e.mapa.set e.atual r.1
    match escolher r.1 e.atual entrada with
    | .continua prox => some (.continua { mapa := mapa, atual := prox, arvorePistas := r.2 })
    | .encerra => some (.retorna { mapa := mapa, atual := e.atual, arvorePistas := r.2 })

/-- The `while (1)` loop run on the player's inputs.  `none` when the function
does not return: the inputs end before the exit choice, or a link dangles. -/
def explorarLaco (e : Estado) : List (Option Nat) → Option Estado
  | [] => none
  | entrada :: resto =>
    match passo e entrada with
    | none => none
    | some (.retorna e1) => some e1
    | some (.continua e1) => explorarLaco e1 resto

/-- Source `explorarSalasComPistas`: the rooms and the clue index it leaves. -/
def explorarSalasComPistas (mapa : List Sala) (inicio : Option Nat)
    (arvorePistas : PistaNode) (entradas : List (Option Nat)) :
    Option (List Sala × PistaNode) :=
  match inicio with
  | none => some (mapa, arvorePistas)
  | some i =>
    match explorarLaco { mapa := mapa, atual := i, arvorePistas := arvorePistas } entradas with
    | none => none
    | some e => some (e.mapa, e.arvorePistas)

/-! ## Room buffers written by `criarSala` -/

/-- Library `strncpy(dest, src, n)`: the first `n` bytes of `dest` become the
bytes of `src`, cut at `n` or padded with NULs up to `n`; the rest of `dest`
keeps what it held. -/
def strncpy (dest : List Nat) (src : CStr) (n : Nat) : List Nat :=
  src.take n ++ List.replicate (n - src.length) 0 ++ dest.drop n

/-- The C string held by a character array: its bytes before the first NUL. -/
def lerCStr (buf : List Nat) : CStr := buf.takeWhile (fun b => b ≠ 0)

/-- Lines 74-75 of `criarSala`: the array `nome` of the new room, `lixo` being
what `malloc` left in it. -/
def criarSalaNome (lixo : List Nat) (nome : CStr) : List Nat :=
  (strncpy lixo nome (MAX_NOME - 1)).set (MAX_NOME - 1) 0

/-- Lines 77-82 of `criarSala`: the array `pista` of the new room, `lixo` being
what `malloc` left in it. -/
def criarSalaPista (lixo : List Nat) (pista : Option CStr) : List Nat :=
  match pista with
  | some p =>
    if p ≠ [] then (strncpy lixo p (MAX_PISTA - 1)).set (MAX_PISTA - 1) 0
    else lixo.set 0 0
  | none => lixo.set 0 0

/-! ## The game built by `main` -/

/-- Lines 307-316 of `main`: the five rooms in the order of their allocation
(hall, salaEstar, cozinha, jardim, biblioteca), after the wiring. -/
def mapaMain : List Sala :=
  [ { criarSala [72, 97, 108, 108, 32, 100, 101, 32, 69, 110, 116, 114, 97, 100, 97]
        (some [66, 105, 108, 104, 101, 116, 101, 32, 99, 111, 109, 32, 101, 110, 100, 101,
          114, 101, 195, 167, 111]) with esquerda := some 1, direita := some 2 },
    { criarSala [83, 97, 108, 97, 32, 100, 101, 32, 69, 115, 116, 97, 114]
        (some [80, 101, 103, 97, 100, 97, 115, 32, 110, 111, 32, 116, 97, 112, 101, 116,
          101]) with esquerda := some 3 },
    { criarSala [67, 111, 122, 105, 110, 104, 97]
        (some [70, 97, 99, 97, 32, 99, 111, 109, 32, 109, 97, 110, 99, 104, 97, 115])
        with direita := some 4 },
    criarSala [74, 97, 114, 100, 105, 109]
      (some [70, 111, 108, 104, 97, 32, 114, 97, 115, 103, 97, 100, 97]),
    criarSala [66, 105, 98, 108, 105, 111, 116, 101, 99, 97]
      (some [76, 105, 118, 114, 111, 32, 100, 101, 115, 108, 111, 99, 97, 100, 111]) ]

/-- Lines 323-330 of `main`: the directory after its five `inserirHash` calls. -/
def htMain : HashTable :=
  inserirChamadas iniciarHashTable
    [ ([66, 105, 108, 104, 101, 116, 101, 32, 99, 111, 109, 32, 101, 110, 100, 101, 114, 101,
        195, 167, 111], [83, 114, 46, 32, 65, 108, 109, 101, 105, 100, 97]),
      ([80, 101, 103, 97, 100, 97, 115, 32, 110, 111, 32, 116, 97, 112, 101, 116, 101],
        [83, 114, 97, 46, 32, 66, 101, 97, 116, 114, 105, 122]),
      ([70, 97, 99, 97, 32, 99, 111, 109, 32, 109, 97, 110, 99, 104, 97, 115],
        [67, 97, 114, 108, 111, 115]),
      ([70, 111, 108, 104, 97, 32, 114, 97, 115, 103, 97, 100, 97],
        [83, 114, 97, 46, 32, 66, 101, 97, 116, 114, 105, 122]),
      ([76, 105, 118, 114, 111, 32, 100, 101, 115, 108, 111, 99, 97, 100, 111],
        [67, 97, 114, 108, 111, 115]) ]

/-- What `main` reports once the exploration has returned. -/
inductive Relato where
  | semPistas : Relato
  | entradaInvalida : Relato
  | sustentada (total : Nat) : Relato
  | naoSustentada (total : Nat) : Relato
  deriving DecidableEq, Repr

/-- Lines 362-363 of `main`: a final newline is removed from the line read. -/
def removerNovaLinha (acusacao : CStr) : CStr :=
  if acusacao.length > 0 ∧ acusacao.getLast? = some 10 then acusacao.dropLast else acusacao

/-- Lines 371-377 of `main`: the verdict printed for the count `total`. -/
def veredito (total : Nat) : Relato :=
  if total ≥ 2 then .sustentada total else .naoSustentada total

/-- Lines 341-378 of `main`.  `linha` is the C string that `fgets` left in
`acusacao`, or `none` when `fgets` returned `NULL`. -/
def acusar (arvorePistas : PistaNode) (ht : HashTable) (linha : Option CStr) : Relato :=
  match arvorePistas with
  | .nulo => .semPistas
  | .no pista esq dir =>
    match linha with
    | none => .entradaInvalida
    | some acusacao =>
      let total := contarPistasParaSuspeito (.no pista esq dir) ht
        (some (removerNovaLinha acusacao))
      veredito total

/-- Source `main`, on the player's choices and the line typed as accusation.
`none` when the exploration does not return. -/
def main (entradas : List (Option Nat)) (linha : Option CStr) : Option Relato :=
  match explorarSalasComPistas mapaMain (some 0) .nulo entradas with
  | none => none
  | some r => some (acusar r.2 htMain linha)

/-! ## Specification predicates -/

/-- Byte-wise lexicographic order, as decided by the sign of `strcmp`. -/
def menor (a b : CStr) : Prop := strcmp a b < 0

instance (a b : CStr) : Decidable (menor a b) := by
  unfold menor; infer_instance

/-- Search-tree invariant of the clue index: everything printed before a node
is below its text and everything printed after it is above. -/
def Ordenada : PistaNode → Prop
  | .nulo => True
  | .no pista esq dir =>
    Ordenada esq ∧ Ordenada dir ∧
      (∀ x ∈ exibirPistasRec esq, menor x pista) ∧
      (∀ x ∈ exibirPistasRec dir, menor pista x)

/-- A collected clue counts for a suspect name when the directory binds it and
the bound name compares equal to the given one under `strcmpIgnoreCase`. -/
def apontaPara (ht : HashTable) (suspeitoAlvo : CStr) (c : CStr) : Bool :=
  match buscarHash ht (some c) with
  | some sus => decide (strcmpIgnoreCase sus suspeitoAlvo = 0)
  | none => false

/-- The djb2 reference: from 5381, `h := h * 33 + byte` over the bytes of the
key in order, wrapping modulo `2 ^ w`. -/
def djb2Ref (w : Nat) (key : CStr) : Nat :=
  key.foldl (fun h b => (h * 33 + b) % 2 ^ w) 5381

/-- The rooms entered by the `while (1)` loop, one per pass, in order. -/
def salasEntradas (e : Estado) : List (Option Nat) → List Nat
  | [] => []
  | entrada :: resto =>
    match passo e entrada with
    | none => []
    | some (.retorna _) => [e.atual]
    | some (.continua e1) => e.atual :: salasEntradas e1 resto

/-- The rooms entered by a call of `explorarSalasComPistas`, in order. -/
def salasVisitadas (mapa : List Sala) (inicio : Option Nat) (arvorePistas : PistaNode)
    (entradas : List (Option Nat)) : List Nat :=
  match inicio with
  | none => []
  | some i => salasEntradas { mapa := mapa, atual := i, arvorePistas := arvorePistas } entradas

/-- The last call of the sequence whose key is exactly `k`, if there is one. -/
def ultimaChamada (chamadas : List ChamadaGeral) (k : CStr) : Option ChamadaGeral :=
  chamadas.reverse.find? (fun c => decide (c.1 = some k))

/-- The choice read is the exit choice: 's' or 'S'. -/
def escolhaSair (entrada : Option Nat) : Prop := ∃ c, entrada = some c ∧ tolower c = 115

instance (entrada : Option Nat) : Decidable (escolhaSair entrada) :=
  match entrada with
  | none => isFalse (by rintro ⟨c, h, _⟩; cases h)
  | some c =>
    if h : tolower c = 115 then isTrue ⟨c, rfl, h⟩
    else isFalse (by rintro ⟨d, hd, hd2⟩; cases hd; exact h hd2)

/-- The state at the top of the next pass after the given inputs, none of
which ends the loop. -/
def avancar (e : Estado) (entradas : List (Option Nat)) : Estado :=
  entradas.foldl
    (fun e x =>
      match passo e x with
      | some (.continua e1) => e1
      | _ => e)
    e

/-- The state in which `main` starts the exploration loop. -/
def inicioMain : Estado := { mapa := mapaMain, atual := 0, arvorePistas := .nulo }

/-- The states in which a pass of the loop can start in the game of `main`:
each room of the map, on arrival and after it has been entered. -/
def estadosMain : List Estado :=
  [[], [none], [some 101], [some 101, none], [some 101, some 101],
    [some 101, some 101, none], [some 100], [some 100, none], [some 100, some 100],
    [some 100, some 100, none]].map (avancar inicioMain)

/-- The string literals of `main`. -/
def pistaBilhete : CStr :=
  [66, 105, 108, 104, 101, 116, 101, 32, 99, 111, 109, 32, 101, 110, 100, 101, 114, 101,
    195, 167, 111]
def pistaPegadas : CStr :=
  [80, 101, 103, 97, 100, 97, 115, 32, 110, 111, 32, 116, 97, 112, 101, 116, 101]
def pistaFaca : CStr := [70, 97, 99, 97, 32, 99, 111, 109, 32, 109, 97, 110, 99, 104, 97, 115]
def pistaFolha : CStr := [70, 111, 108, 104, 97, 32, 114, 97, 115, 103, 97, 100, 97]
def pistaLivro : CStr := [76, 105, 118, 114, 111, 32, 100, 101, 115, 108, 111, 99, 97, 100, 111]
def almeida : CStr := [83, 114, 46, 32, 65, 108, 109, 101, 105, 100, 97]
def beatriz : CStr := [83, 114, 97, 46, 32, 66, 101, 97, 116, 114, 105, 122]
def carlos : CStr := [67, 97, 114, 108, 111, 115]

/-- What the accusation depends on in a state: the clues printed from the
index, and for each room whether its clue field is empty. -/
def resumo (e : Estado) : List CStr × List Bool :=
  (exibirPistasRec e.arvorePistas, e.mapa.map (fun s => decide (s.pista = [])))

/-- The five summaries with which the exploration of the game of `main` can
return: one per room in which the player can stop. -/
def resumosMain : List (List CStr × List Bool) :=
  [ ([pistaBilhete], [true, false, false, false, false]),
    ([pistaBilhete, pistaPegadas], [true, true, false, false, false]),
    ([pistaBilhete, pistaFolha, pistaPegadas], [true, true, false, true, false]),
    ([pistaBilhete, pistaFaca], [true, false, true, false, false]),
    ([pistaBilhete, pistaFaca, pistaLivro], [true, false, true, false, true]) ]

/-- A pass from the state stays among the states of `estadosMain`, or returns
with a summary of `resumosMain`. -/
def passoFechado (e : Estado) (x : Option Nat) : Bool :=
  match passo e x with
  | some (.continua e1) => decide (e1 ∈ estadosMain)
  | some (.retorna e1) => decide (resumo e1 ∈ resumosMain)
  | none => false

/-! ## Facts about the string library -/

theorem isCStr_nil : IsCStr [] := by
  intro b hb; cases hb

theorem isCStr_cons {x : Nat} {xs : CStr} :
    IsCStr (x :: xs) ↔ (0 < x ∧ x < 256) ∧ IsCStr xs := by
  simp [IsCStr]

theorem strcmp_self (a : CStr) : strcmp a a = 0 := by
  induction a with
  | nil => rfl
  | cons x xs ih => simp [strcmp, ih]

theorem strcmp_swap (a b : CStr) : strcmp b a = - strcmp a b := by
  induction a generalizing b with
  | nil =>
    cases b with
    | nil => simp [strcmp]
    | cons y ys => simp [strcmp]
  | cons x xs ih =>
    cases b with
    | nil => simp [strcmp]
    | cons y ys =>
      by_cases hxy : x = y
      · subst hxy; simp [strcmp, ih]
      · have hyx : ¬ y = x := fun h => hxy h.symm
        simp [strcmp, hxy, hyx]

theorem strcmp_eq_zero {a b : CStr} (ha : IsCStr a) (hb : IsCStr b)
    (h : strcmp a b = 0) : a = b := by
  induction a generalizing b with
  | nil =>
    cases b with
    | nil => rfl
    | cons y ys =>
      have hy := (isCStr_cons.mp hb).1.1
      simp [strcmp] at h
      omega
  | cons x xs ih =>
    have hx := (isCStr_cons.mp ha).1.1
    cases b with
    | nil =>
      simp [strcmp] at h
      omega
    | cons y ys =>
      by_cases hxy : x = y
      · subst hxy
        simp [strcmp] at h
        rw [ih (isCStr_cons.mp ha).2 (isCStr_cons.mp hb).2 h]
      · simp [strcmp, hxy] at h
        omega

theorem strcmp_eq_zero_iff {a b : CStr} (ha : IsCStr a) (hb : IsCStr b) :
    strcmp a b = 0 ↔ a = b :=
  ⟨strcmp_eq_zero ha hb, fun h => h ▸ strcmp_self a⟩

theorem menor_irrefl (a : CStr) : ¬ menor a a := by
  simp [menor, strcmp_self]

theorem menor_asymm {a b : CStr} (h : menor a b) : ¬ menor b a := by
  unfold menor at *
  rw [strcmp_swap a b]
  omega

theorem menor_trans {a b c : CStr} (ha : IsCStr a) (hb : IsCStr b) (hc : IsCStr c)
    (hab : menor a b) (hbc : menor b c) : menor a c := by
  unfold menor at *
  induction a generalizing b c with
  | nil =>
    cases c with
    | nil =>
      cases b with
      | nil => simp [strcmp] at hab
      | cons y ys => simp [strcmp] at hbc; omega
    | cons z zs =>
      have hz := (isCStr_cons.mp hc).1.1
      simp [strcmp]; omega
  | cons x xs ih =>
    cases b with
    | nil => simp [strcmp] at hab; omega
    | cons y ys =>
      cases c with
      | nil => simp [strcmp] at hbc; omega
      | cons z zs =>
        by_cases hxy : x = y
        · subst hxy
          by_cases hxz : x = z
          · subst hxz
            simp [strcmp] at hab hbc ⊢
            exact ih (isCStr_cons.mp ha).2 (isCStr_cons.mp hb).2 (isCStr_cons.mp hc).2 hab hbc
          · simp [strcmp, hxz] at hbc ⊢
            exact hbc
        · by_cases hyz : y = z
          · subst hyz
            simp [strcmp, hxy] at hab ⊢
            exact hab
          · simp [strcmp, hxy] at hab
            simp [strcmp, hyz] at hbc
            have hxz : ¬ x = z := by omega
            simp [strcmp, hxz]
            omega

/-! ## Facts about the clue index -/

theorem inserirPista_eq_rec (raiz : PistaNode) (t : CStr) :
    inserirPista raiz (some t) = inserirPistaRec raiz (some t) := by
  by_cases ht : t = []
  · subst ht
    cases raiz <;> simp [inserirPista, inserirPistaRec]
  · simp [inserirPista, ht]

theorem inserirPistaRec_vazio (raiz : PistaNode) : inserirPistaRec raiz (some []) = raiz := by
  cases raiz <;> simp [inserirPistaRec]

theorem inserirPistaRec_nulo {t : CStr} (ht : t ≠ []) :
    inserirPistaRec .nulo (some t) = .no t .nulo .nulo := by
  simp [inserirPistaRec, ht, criarPistaNode]

theorem inserirPistaRec_no {t : CStr} (ht : t ≠ []) (pista : CStr) (esq dir : PistaNode) :
    inserirPistaRec (.no pista esq dir) (some t) =
      if strcmp t pista < 0 then .no pista (inserirPistaRec esq (some t)) dir
      else if strcmp t pista > 0 then .no pista esq (inserirPistaRec dir (some t))
      else .no pista esq dir := by
  simp [inserirPistaRec, ht]

/-- Inserting adds nothing but the inserted text. -/
theorem mem_inserir_imp {t : CStr} (ht : t ≠ []) (raiz : PistaNode) (x : CStr)
    (hx : x ∈ exibirPistasRec (inserirPistaRec raiz (some t))) :
    x = t ∨ x ∈ exibirPistasRec raiz := by
  induction raiz with
  | nulo =>
    rw [inserirPistaRec_nulo ht] at hx
    simp [exibirPistasRec] at hx
    exact Or.inl hx
  | no pista esq dir ihe ihd =>
    rw [inserirPistaRec_no ht] at hx
    split_ifs at hx with h1 h2
    · simp only [exibirPistasRec, List.mem_append, List.mem_cons] at hx ⊢
      rcases hx with hx | hx | hx
      · rcases ihe hx with h | h
        · exact Or.inl h
        · exact Or.inr (Or.inl h)
      · exact Or.inr (Or.inr (Or.inl hx))
      · exact Or.inr (Or.inr (Or.inr hx))
    · simp only [exibirPistasRec, List.mem_append, List.mem_cons] at hx ⊢
      rcases hx with hx | hx | hx
      · exact Or.inr (Or.inl hx)
      · exact Or.inr (Or.inr (Or.inl hx))
      · rcases ihd hx with h | h
        · exact Or.inl h
        · exact Or.inr (Or.inr (Or.inr h))
    · exact Or.inr hx

/-- Inserting loses nothing. -/
theorem mem_inserir_of_mem (t : CStr) (raiz : PistaNode) (x : CStr)
    (hx : x ∈ exibirPistasRec raiz) :
    x ∈ exibirPistasRec (inserirPistaRec raiz (some t)) := by
  by_cases ht : t = []
  · subst ht; rw [inserirPistaRec_vazio]; exact hx
  · induction raiz with
    | nulo => simp [exibirPistasRec] at hx
    | no pista esq dir ihe ihd =>
      rw [inserirPistaRec_no ht]
      simp only [exibirPistasRec, List.mem_append, List.mem_cons] at hx
      split_ifs with h1 h2
      · simp only [exibirPistasRec, List.mem_append, List.mem_cons]
        rcases hx with hx | hx | hx
        · exact Or.inl (ihe hx)
        · exact Or.inr (Or.inl hx)
        · exact Or.inr (Or.inr hx)
      · simp only [exibirPistasRec, List.mem_append, List.mem_cons]
        rcases hx with hx | hx | hx
        · exact Or.inl hx
        · exact Or.inr (Or.inl hx)
        · exact Or.inr (Or.inr (ihd hx))
      · simp only [exibirPistasRec, List.mem_append, List.mem_cons]
        exact hx

/-- The inserted text is in the tree afterwards. -/
theorem mem_inserir_self {t : CStr} (ht : t ≠ []) (hc : IsCStr t) (raiz : PistaNode)
    (hr : ∀ x ∈ exibirPistasRec raiz, IsCStr x) :
    t ∈ exibirPistasRec (inserirPistaRec raiz (some t)) := by
  induction raiz with
  | nulo => rw [inserirPistaRec_nulo ht]; simp [exibirPistasRec]
  | no pista esq dir ihe ihd =>
    rw [inserirPistaRec_no ht]
    have hre : ∀ x ∈ exibirPistasRec esq, IsCStr x := fun x hx =>
      hr x (by simp [exibirPistasRec, hx])
    have hrd : ∀ x ∈ exibirPistasRec dir, IsCStr x := fun x hx =>
      hr x (by simp [exibirPistasRec, hx])
    have hp : IsCStr pista := hr pista (by simp [exibirPistasRec])
    split_ifs with h1 h2
    · simp only [exibirPistasRec, List.mem_append, List.mem_cons]
      exact Or.inl (ihe hre)
    · simp only [exibirPistasRec, List.mem_append, List.mem_cons]
      exact Or.inr (Or.inr (ihd hrd))
    · have h0 : strcmp t pista = 0 := by omega
      have := strcmp_eq_zero hc hp h0
      subst this
      simp [exibirPistasRec]

theorem ordenada_inserir {t : CStr} (ht : t ≠ []) (raiz : PistaNode) (ho : Ordenada raiz) :
    Ordenada (inserirPistaRec raiz (some t)) := by
  induction raiz with
  | nulo =>
    rw [inserirPistaRec_nulo ht]
    simp [Ordenada, exibirPistasRec]
  | no pista esq dir ihe ihd =>
    rw [inserirPistaRec_no ht]
    obtain ⟨hoe, hod, hle, hld⟩ := ho
    split_ifs with h1 h2
    · refine ⟨ihe hoe, hod, ?_, hld⟩
      intro x hx
      rcases mem_inserir_imp ht esq x hx with h | h
      · subst h; exact h1
      · exact hle x h
    · refine ⟨hoe, ihd hod, hle, ?_⟩
      intro x hx
      rcases mem_inserir_imp ht dir x hx with h | h
      · subst h
        unfold menor
        rw [strcmp_swap x pista]
        omega
      · exact hld x h
    · exact ⟨hoe, hod, hle, hld⟩

theorem pairwise_of_ordenada (raiz : PistaNode) (ho : Ordenada raiz)
    (hr : ∀ x ∈ exibirPistasRec raiz, IsCStr x) :
    (exibirPistasRec raiz).Pairwise menor := by
  induction raiz with
  | nulo => simp [exibirPistasRec]
  | no pista esq dir ihe ihd =>
    obtain ⟨hoe, hod, hle, hld⟩ := ho
    have hre : ∀ x ∈ exibirPistasRec esq, IsCStr x := fun x hx =>
      hr x (by simp [exibirPistasRec, hx])
    have hrd : ∀ x ∈ exibirPistasRec dir, IsCStr x := fun x hx =>
      hr x (by simp [exibirPistasRec, hx])
    have hp : IsCStr pista := hr pista (by simp [exibirPistasRec])
    simp only [exibirPistasRec]
    rw [List.pairwise_append]
    refine ⟨ihe hoe hre, ?_, ?_⟩
    · rw [List.pairwise_cons]
      exact ⟨hld, ihd hod hrd⟩
    · intro a ha b hb
      rcases List.mem_cons.mp hb with h | h
      · subst h; exact hle a ha
      · exact menor_trans (hre a ha) hp (hrd b h) (hle a ha) (hld b h)

theorem nodup_of_pairwise_menor {l : List CStr} (h : l.Pairwise menor) : l.Nodup :=
  List.Pairwise.imp (fun {a b} (hab : menor a b) (heq : a = b) => menor_irrefl a (heq ▸ hab)) h

/-- What the clue index holds after a run of insertions into any ordered tree. -/
theorem inserirTodas_inv (textos : List CStr) (htx : ∀ t ∈ textos, IsCStr t)
    (raiz : PistaNode) (ho : Ordenada raiz) (hr : ∀ x ∈ exibirPistasRec raiz, IsCStr x) :
    Ordenada (inserirTodas raiz textos) ∧
    (∀ x ∈ exibirPistasRec (inserirTodas raiz textos), IsCStr x) ∧
    (∀ x, x ∈ exibirPistasRec (inserirTodas raiz textos) ↔
      (x ∈ exibirPistasRec raiz ∨ (x ∈ textos ∧ x ≠ []))) := by
  induction textos generalizing raiz with
  | nil => simp [inserirTodas, ho]; exact hr
  | cons t ts ih =>
    have hstep : inserirTodas raiz (t :: ts) = inserirTodas (inserirPistaRec raiz (some t)) ts := by
      simp [inserirTodas, inserirPista_eq_rec]
    rw [hstep]
    have htc : IsCStr t := htx t (by simp)
    have hts : ∀ t ∈ ts, IsCStr t := fun u hu => htx u (by simp [hu])
    by_cases ht : t = []
    · subst ht
      rw [inserirPistaRec_vazio]
      obtain ⟨h1, h2, h3⟩ := ih hts raiz ho hr
      refine ⟨h1, h2, ?_⟩
      intro x
      rw [h3 x]
      constructor
      · rintro (h | ⟨h, hne⟩)
        · exact Or.inl h
        · exact Or.inr ⟨by simp [h], hne⟩
      · rintro (h | ⟨h, hne⟩)
        · exact Or.inl h
        · rcases List.mem_cons.mp h with h | h
          · exact absurd h hne
          · exact Or.inr ⟨h, hne⟩
    · have ho1 := ordenada_inserir ht raiz ho
      have hr1 : ∀ x ∈ exibirPistasRec (inserirPistaRec raiz (some t)), IsCStr x := by
        intro x hx
        rcases mem_inserir_imp ht raiz x hx with h | h
        · subst h; exact htc
        · exact hr x h
      obtain ⟨h1, h2, h3⟩ := ih hts _ ho1 hr1
      refine ⟨h1, h2, ?_⟩
      intro x
      rw [h3 x]
      constructor
      · rintro (h | ⟨h, hne⟩)
        · rcases mem_inserir_imp ht raiz x h with h | h
          · subst h; exact Or.inr ⟨by simp, ht⟩
          · exact Or.inl h
        · exact Or.inr ⟨by simp [h], hne⟩
      · rintro (h | ⟨h, hne⟩)
        · exact Or.inl (mem_inserir_of_mem t raiz x h)
        · rcases List.mem_cons.mp h with h | h
          · subst h; exact Or.inl (mem_inserir_self ht htc raiz hr)
          · exact Or.inr ⟨h, hne⟩

/-- Inserting a text that the ordered tree already holds changes nothing. -/
theorem inserirPistaRec_of_mem (raiz : PistaNode) (ho : Ordenada raiz) (t : CStr)
    (hm : t ∈ exibirPistasRec raiz) : inserirPistaRec raiz (some t) = raiz := by
  by_cases ht : t = []
  · subst ht; exact inserirPistaRec_vazio raiz
  · induction raiz with
    | nulo => simp [exibirPistasRec] at hm
    | no pista esq dir ihe ihd =>
      obtain ⟨hoe, hod, hle, hld⟩ := ho
      rw [inserirPistaRec_no ht]
      simp only [exibirPistasRec, List.mem_append, List.mem_cons] at hm
      split_ifs with h1 h2
      · rcases hm with hm | hm | hm
        · rw [ihe hoe hm]
        · subst hm; rw [strcmp_self] at h1; omega
        · have := hld t hm
          exact absurd h1 (menor_asymm this)
      · have h3 : menor pista t := by
          unfold menor; rw [strcmp_swap t pista]; omega
        rcases hm with hm | hm | hm
        · exact absurd (hle t hm) (menor_asymm h3)
        · subst hm; rw [strcmp_self] at h2; omega
        · rw [ihd hod hm]
      · rfl

instance : IsAntisymm CStr menor :=
  ⟨fun _ _ hab hba => absurd hba (menor_asymm hab)⟩

/-- Two insertion sequences with the same non-empty texts print the same list. -/
theorem exibir_inserirTodas_congr (t1 t2 : List CStr)
    (h1 : ∀ t ∈ t1, IsCStr t) (h2 : ∀ t ∈ t2, IsCStr t)
    (h12 : ∀ x ∈ t1, x ≠ [] → x ∈ t2) (h21 : ∀ x ∈ t2, x ≠ [] → x ∈ t1) :
    exibirPistasRec (inserirTodas .nulo t1) = exibirPistasRec (inserirTodas .nulo t2) := by
  obtain ⟨a1, a2, a3⟩ := inserirTodas_inv t1 h1 .nulo trivial
    (by intro x hx; simp [exibirPistasRec] at hx)
  obtain ⟨b1, b2, b3⟩ := inserirTodas_inv t2 h2 .nulo trivial
    (by intro x hx; simp [exibirPistasRec] at hx)
  have pa := pairwise_of_ordenada _ a1 a2
  have pb := pairwise_of_ordenada _ b1 b2
  apply List.eq_of_perm_of_sorted (r := menor) _ pa pb
  rw [List.perm_ext_iff_of_nodup (nodup_of_pairwise_menor pa) (nodup_of_pairwise_menor pb)]
  intro x
  rw [a3 x, b3 x]
  simp only [exibirPistasRec, List.not_mem_nil, false_or]
  constructor
  · rintro ⟨h, hne⟩; exact ⟨h12 x h hne, hne⟩
  · rintro ⟨h, hne⟩; exact ⟨h21 x h hne, hne⟩

/-! ## Facts about the accusation count -/

/-- The recursive count is the number of printed clues that point at the name. -/
theorem contarRec_eq_filter (raiz : PistaNode) (ht : HashTable) (alvo : CStr) :
    contarPistasParaSuspeitoRec raiz ht alvo =
      ((exibirPistasRec raiz).filter (apontaPara ht alvo)).length := by
  induction raiz with
  | nulo => simp [contarPistasParaSuspeitoRec, exibirPistasRec]
  | no pista esq dir ihe ihd =>
    obtain ⟨v, hb⟩ : ∃ v, buscarHash ht (some pista) = v := ⟨_, rfl⟩
    simp only [contarPistasParaSuspeitoRec, exibirPistasRec, List.filter_append,
      List.length_append, List.filter_cons, ihe, ihd, apontaPara, hb]
    cases v with
    | none => simp
    | some sus =>
      by_cases hs : strcmpIgnoreCase sus alvo = 0
      · simp [hs]; rw [Nat.add_right_comm, Nat.add_assoc]
      · simp [hs]

theorem contar_eq_filter (raiz : PistaNode) (ht : HashTable) (alvo : CStr) :
    contarPistasParaSuspeito raiz ht (some alvo) =
      ((exibirPistasRec raiz).filter (apontaPara ht alvo)).length := by
  cases raiz with
  | nulo => simp [contarPistasParaSuspeito, exibirPistasRec]
  | no pista esq dir =>
    simp only [contarPistasParaSuspeito]
    exact contarRec_eq_filter _ ht alvo

theorem contar_none (raiz : PistaNode) (ht : HashTable) :
    contarPistasParaSuspeito raiz ht none = 0 := by
  cases raiz <;> rfl

/-- The case-insensitive comparison sees its second argument only through
`tolower`. -/
theorem strcmpIgnoreCase_congr (s a b : CStr) (h : a.map tolower = b.map tolower) :
    strcmpIgnoreCase s a = strcmpIgnoreCase s b := by
  induction s generalizing a b with
  | nil =>
    cases a with
    | nil =>
      cases b with
      | nil => rfl
      | cons z zs => simp at h
    | cons y ys =>
      cases b with
      | nil => simp at h
      | cons z zs =>
        simp only [List.map_cons, List.cons.injEq] at h
        simp [strcmpIgnoreCase, h.1]
  | cons x xs ih =>
    cases a with
    | nil =>
      cases b with
      | nil => rfl
      | cons z zs => simp at h
    | cons y ys =>
      cases b with
      | nil => simp at h
      | cons z zs =>
        simp only [List.map_cons, List.cons.injEq] at h
        simp only [strcmpIgnoreCase, h.1, ih ys zs h.2]

/-! ## Facts about the suspect directory -/

theorem length_iniciarHashTable : iniciarHashTable.tabela.length = HASH_TABLE_SIZE := by
  simp [iniciarHashTable]

theorem length_inserirHash (ht : HashTable) (pista suspeito : Option CStr) :
    (inserirHash ht pista suspeito).tabela.length = ht.tabela.length := by
  cases pista with
  | none => rfl
  | some p =>
    by_cases hp : p = []
    · simp [inserirHash, hp]
    · simp [inserirHash, hp]

theorem length_inserirChamadas (ht : HashTable) (chamadas : List Chamada) :
    (inserirChamadas ht chamadas).tabela.length = ht.tabela.length := by
  induction chamadas generalizing ht with
  | nil => rfl
  | cons c cs ih =>
    have : inserirChamadas ht (c :: cs) =
        inserirChamadas (inserirHash ht (some c.1) (some c.2)) cs := rfl
    rw [this, ih, length_inserirHash]

theorem buscarHash_iniciar (k : CStr) : buscarHash iniciarHashTable (some k) = none := by
  simp only [buscarHash, iniciarHashTable, List.getD_eq_getElem?_getD, List.getElem?_replicate]
  split_ifs <;> rfl

/-- Lookup after one insertion: the new binding answers for its own key, and
every other key is answered as before. -/
theorem buscarHash_inserirHash (ht : HashTable) (hlen : ht.tabela.length = HASH_TABLE_SIZE)
    (p k : CStr) (s : Option CStr) (hp : IsCStr p) (hk : IsCStr k) :
    buscarHash (inserirHash ht (some p) s) (some k) =
      if p = k ∧ p ≠ [] then s else buscarHash ht (some k) := by
  by_cases hpe : p = []
  · simp [inserirHash, hpe]
  · have hlt : hash_djb2 p % HASH_TABLE_SIZE < ht.tabela.length := by
      rw [hlen]; exact Nat.mod_lt _ (by decide)
    by_cases hh : hash_djb2 p % HASH_TABLE_SIZE = hash_djb2 k % HASH_TABLE_SIZE
    · simp only [inserirHash, hpe, if_false, buscarHash, ← hh, List.getD_eq_getElem?_getD,
        List.getElem?_set_self hlt, Option.getD_some, buscarCadeia, strcmp_eq_zero_iff hp hk]
      by_cases hpk : p = k
      · subst hpk; simp [hpe]
      · simp [hpk]
    · have hpk : p ≠ k := fun h => hh (by rw [h])
      simp only [inserirHash, hpe, if_false, buscarHash, List.getD_eq_getElem?_getD,
        List.getElem?_set_ne hh]
      simp [hpk]

theorem inserirChamadas_append (ht : HashTable) (a b : List Chamada) :
    inserirChamadas ht (a ++ b) = inserirChamadas (inserirChamadas ht a) b := by
  simp [inserirChamadas, List.foldl_append]

/-- Calls with other keys (or with the empty key) do not change what a key
looks up. -/
theorem buscarHash_inserirChamadas_outros (chamadas : List Chamada) (k : CStr)
    (hk : IsCStr k) (hc : ∀ c ∈ chamadas, IsCStr c.1)
    (hne : ∀ c ∈ chamadas, c.1 ≠ k ∨ c.1 = [])
    (ht : HashTable) (hlen : ht.tabela.length = HASH_TABLE_SIZE) :
    buscarHash (inserirChamadas ht chamadas) (some k) = buscarHash ht (some k) := by
  induction chamadas generalizing ht with
  | nil => rfl
  | cons c cs ih =>
    have hstep : inserirChamadas ht (c :: cs) =
        inserirChamadas (inserirHash ht (some c.1) (some c.2)) cs := rfl
    rw [hstep, ih (fun d hd => hc d (by simp [hd])) (fun d hd => hne d (by simp [hd])) _
      (by rw [length_inserirHash, hlen]),
      buscarHash_inserirHash ht hlen c.1 k _ (hc c (by simp)) hk]
    have := hne c (by simp)
    rw [if_neg]
    rintro ⟨h1, h2⟩
    rcases this with h | h
    · exact h h1
    · exact h2 h

/-- A key bound by some call, or bound before, is still bound afterwards. -/
theorem buscarHash_inserirChamadas_isSome (chamadas : List Chamada) (k : CStr)
    (hk : IsCStr k) (hke : k ≠ []) (hc : ∀ c ∈ chamadas, IsCStr c.1)
    (ht : HashTable) (hlen : ht.tabela.length = HASH_TABLE_SIZE)
    (h : (buscarHash ht (some k)).isSome ∨ ∃ c ∈ chamadas, c.1 = k) :
    (buscarHash (inserirChamadas ht chamadas) (some k)).isSome := by
  induction chamadas generalizing ht with
  | nil =>
    rcases h with h | ⟨c, hc, _⟩
    · exact h
    · cases hc
  | cons c cs ih =>
    have hstep : inserirChamadas ht (c :: cs) =
        inserirChamadas (inserirHash ht (some c.1) (some c.2)) cs := rfl
    rw [hstep]
    apply ih (fun d hd => hc d (by simp [hd])) _ (by rw [length_inserirHash, hlen])
    rw [buscarHash_inserirHash ht hlen c.1 k _ (hc c (by simp)) hk]
    by_cases hck : c.1 = k
    · left
      rw [if_pos ⟨hck, by rw [hck]; exact hke⟩]
      rfl
    · rw [if_neg (fun hh => hck hh.1)]
      rcases h with h | ⟨d, hd, hdk⟩
      · exact Or.inl h
      · rcases List.mem_cons.mp hd with hd | hd
        · subst hd; exact absurd hdk hck
        · exact Or.inr ⟨d, hd, hdk⟩

theorem length_inserirChamadasGerais (ht : HashTable) (chamadas : List ChamadaGeral) :
    (inserirChamadasGerais ht chamadas).tabela.length = ht.tabela.length := by
  induction chamadas generalizing ht with
  | nil => rfl
  | cons c cs ih =>
    have : inserirChamadasGerais ht (c :: cs) =
        inserirChamadasGerais (inserirHash ht c.1 c.2) cs := rfl
    rw [this, ih, length_inserirHash]

/-- Lookup after one call on any arguments: a call on the looked-up key, when
that key is not empty, answers with the suspect pointer it was given, `NULL`
included; any other call changes nothing. -/
theorem buscarHash_inserirHash_geral (ht : HashTable)
    (hlen : ht.tabela.length = HASH_TABLE_SIZE) (c : ChamadaGeral) (k : CStr)
    (hc : ∀ p, c.1 = some p → IsCStr p) (hk : IsCStr k) :
    buscarHash (inserirHash ht c.1 c.2) (some k) =
      if c.1 = some k ∧ k ≠ [] then c.2 else buscarHash ht (some k) := by
  obtain ⟨c1, c2⟩ := c
  cases c1 with
  | none => simp [inserirHash]
  | some p =>
    have h := buscarHash_inserirHash ht hlen p k c2 (hc p rfl) hk
    simp only [h, Option.some.injEq]
    by_cases hpk : p = k
    · subst hpk; rfl
    · simp [hpk]

/-- Lookup of the empty key finds nothing, whatever the calls. -/
theorem buscarHash_inserirChamadasGerais_vazio (chamadas : List ChamadaGeral)
    (hwf : ∀ c ∈ chamadas, ∀ p, c.1 = some p → IsCStr p)
    (ht : HashTable) (hlen : ht.tabela.length = HASH_TABLE_SIZE) :
    buscarHash (inserirChamadasGerais ht chamadas) (some []) = buscarHash ht (some []) := by
  induction chamadas generalizing ht with
  | nil => rfl
  | cons c cs ih =>
    have hstep : inserirChamadasGerais ht (c :: cs) =
        inserirChamadasGerais (inserirHash ht c.1 c.2) cs := rfl
    rw [hstep, ih (fun d hd => hwf d (by simp [hd])) _ (by rw [length_inserirHash, hlen]),
      buscarHash_inserirHash_geral ht hlen c [] (hwf c (by simp)) isCStr_nil]
    simp

/-- Lookup of a non-empty key gives the suspect pointer of the last call on
that key, and what the table held before when there is no such call. -/
theorem buscarHash_inserirChamadasGerais (chamadas : List ChamadaGeral) (k : CStr)
    (hk : IsCStr k) (hke : k ≠ [])
    (hwf : ∀ c ∈ chamadas, ∀ p, c.1 = some p → IsCStr p)
    (ht : HashTable) (hlen : ht.tabela.length = HASH_TABLE_SIZE) :
    buscarHash (inserirChamadasGerais ht chamadas) (some k) =
      match ultimaChamada chamadas k with
      | some c => c.2
      | none => buscarHash ht (some k) := by
  induction chamadas generalizing ht with
  | nil => rfl
  | cons c cs ih =>
    have hstep : inserirChamadasGerais ht (c :: cs) =
        inserirChamadasGerais (inserirHash ht c.1 c.2) cs := rfl
    have hult : ultimaChamada (c :: cs) k =
        (ultimaChamada cs k).or (if c.1 = some k then some c else none) := by
      simp only [ultimaChamada, List.reverse_cons, List.find?_append, List.find?_cons,
        List.find?_nil]
      by_cases hck : c.1 = some k
      · simp [hck]
      · simp [hck]
    rw [hstep, ih (fun d hd => hwf d (by simp [hd])) _ (by rw [length_inserirHash, hlen]),
      hult, buscarHash_inserirHash_geral ht hlen c k (hwf c (by simp)) hk]
    cases hu : ultimaChamada cs k with
    | some d => simp
    | none =>
      by_cases hck : c.1 = some k
      · simp [hck, hke]
      · simp [hck]

/-! ## Facts about the hash function and the room buffers -/

/-- One round of `hash_djb2` is one round of the reference. -/
theorem djb2_passo (hash c : Nat) :
    (((hash <<< 5) % 2 ^ ULONG_BITS + hash) % 2 ^ ULONG_BITS + c) % 2 ^ ULONG_BITS =
      (hash * 33 + c) % 2 ^ ULONG_BITS := by
  have h5 : hash <<< 5 = hash * 32 := by
    rw [Nat.shiftLeft_eq]
  have hM : 2 ^ ULONG_BITS = 18446744073709551616 := by decide
  rw [h5, hM]
  omega

theorem hash_djb2_eq_ref (key : CStr) : hash_djb2 key = djb2Ref ULONG_BITS key := by
  unfold hash_djb2 djb2Ref
  congr 1
  funext hash c
  exact djb2_passo hash c

/-- The C string of a buffer that holds a NUL right after NUL-free bytes. -/
theorem lerCStr_append_nul (a : CStr) (r : List Nat) (ha : IsCStr a) :
    lerCStr (a ++ 0 :: r) = a := by
  unfold lerCStr
  induction a with
  | nil => simp
  | cons x xs ih =>
    have hx := (isCStr_cons.mp ha).1.1
    have hx0 : x ≠ 0 := by omega
    simp only [List.cons_append, List.takeWhile_cons, hx0, ne_eq, not_false_eq_true,
      decide_True, if_true]
    rw [ih (isCStr_cons.mp ha).2]

theorem isCStr_take (a : CStr) (n : Nat) (ha : IsCStr a) : IsCStr (a.take n) :=
  fun b hb => ha b (List.mem_of_mem_take hb)

/-- Writing `src` with `strncpy` into a buffer of `n + 1` bytes and a NUL at
index `n` leaves the first `n` bytes of `src`, or all of it when shorter. -/
theorem lerCStr_strncpy_set (lixo : List Nat) (src : CStr) (n : Nat)
    (hs : IsCStr src) (hl : lixo.length = n + 1) :
    lerCStr ((strncpy lixo src n).set n 0) = src.take n := by
  unfold strncpy
  by_cases hlen : src.length < n
  · obtain ⟨k, hk⟩ : ∃ k, n - src.length = k + 1 := ⟨n - src.length - 1, by omega⟩
    have htake : src.take n = src := List.take_of_length_le (by omega)
    rw [hk, htake, List.replicate_succ, List.append_assoc, List.cons_append,
      List.set_append]
    have hnl : ¬ n < src.length := by omega
    rw [if_neg hnl]
    obtain ⟨j, hj⟩ : ∃ j, n - src.length = j + 1 := ⟨k, hk⟩
    rw [hj, List.set_cons_succ]
    exact lerCStr_append_nul src _ hs
  · have htl : (src.take n).length = n := by
      rw [List.length_take]; omega
    have hz : n - src.length = 0 := by omega
    obtain ⟨g, hg⟩ : ∃ g, lixo.drop n = [g] := by
      have hd : (lixo.drop n).length = 1 := by rw [List.length_drop, hl]; omega
      match hdl : lixo.drop n, hd with
      | [g], _ => exact ⟨g, rfl⟩
    rw [hz, List.replicate_zero, List.append_nil, hg, List.set_append]
    have hnl : ¬ n < (src.take n).length := by omega
    rw [if_neg hnl, htl, Nat.sub_self, List.set_cons_zero]
    exact lerCStr_append_nul _ _ (isCStr_take src n hs)

theorem lerCStr_set_zero (lixo : List Nat) (hl : 0 < lixo.length) :
    lerCStr (lixo.set 0 0) = [] := by
  cases lixo with
  | nil => simp at hl
  | cons g gs => simp [lerCStr]

/-! ## Facts about the exploration loop -/

theorem entrarSala_pista (s : Sala) (arv : PistaNode) : (entrarSala s arv).1.pista = [] := by
  unfold entrarSala
  split_ifs with h
  · rfl
  · simpa using h

theorem entrarSala_esquerda (s : Sala) (arv : PistaNode) :
    (entrarSala s arv).1.esquerda = s.esquerda := by
  unfold entrarSala
  split_ifs <;> rfl

theorem entrarSala_direita (s : Sala) (arv : PistaNode) :
    (entrarSala s arv).1.direita = s.direita := by
  unfold entrarSala
  split_ifs <;> rfl

/-- Entering a room whose clue field is empty changes nothing. -/
theorem entrarSala_of_vazia (s : Sala) (arv : PistaNode) (h : s.pista = []) :
    entrarSala s arv = (s, arv) := by
  simp [entrarSala, h]

theorem escolher_encerra_iff (s : Sala) (atual : Nat) (entrada : Option Nat) :
    escolher s atual entrada = .encerra ↔ escolhaSair entrada := by
  cases entrada with
  | none =>
    simp only [escolher]
    constructor
    · intro h; cases h
    · rintro ⟨c, h, _⟩; cases h
  | some c =>
    constructor
    · intro h
      refine ⟨c, rfl, ?_⟩
      by_contra hc
      simp only [escolher] at h
      split_ifs at h with h1 h2
      · cases hl : s.esquerda <;> simp [hl] at h
      · cases hr : s.direita <;> simp [hr] at h
    · rintro ⟨d, hd, hd2⟩
      cases hd
      simp [escolher, hd2]

/-- What one pass of the loop yields in a state whose current room exists. -/
theorem passo_eq (e : Estado) (s : Sala) (entrada : Option Nat)
    (hs : e.mapa[e.atual]? = some s) :
    passo e entrada =
      match escolher (entrarSala s e.arvorePistas).1 e.atual entrada with
      | .continua prox => some (.continua
          { mapa := e.mapa.set e.atual (entrarSala s e.arvorePistas).1
            atual := prox
            arvorePistas := (entrarSala s e.arvorePistas).2 })
      | .encerra => some (.retorna
          { mapa := e.mapa.set e.atual (entrarSala s e.arvorePistas).1
            atual := e.atual
            arvorePistas := (entrarSala s e.arvorePistas).2 }) := by
  simp only [passo, hs]

theorem passo_retorna_iff (e : Estado) (s : Sala) (entrada : Option Nat)
    (hs : e.mapa[e.atual]? = some s) :
    (∃ e1, passo e entrada = some (.retorna e1)) ↔ escolhaSair entrada := by
  rw [passo_eq e s entrada hs, ← escolher_encerra_iff (entrarSala s e.arvorePistas).1 e.atual]
  cases hesc : escolher (entrarSala s e.arvorePistas).1 e.atual entrada with
  | continua prox => simp
  | encerra => simp

theorem passo_continua_iff (e : Estado) (s : Sala) (entrada : Option Nat)
    (hs : e.mapa[e.atual]? = some s) :
    (∃ e1, passo e entrada = some (.continua e1)) ↔ ¬ escolhaSair entrada := by
  rw [passo_eq e s entrada hs, ← escolher_encerra_iff (entrarSala s e.arvorePistas).1 e.atual]
  cases hesc : escolher (entrarSala s e.arvorePistas).1 e.atual entrada with
  | continua prox => simp
  | encerra => simp

/-- Without an exit choice among the inputs the loop does not return. -/
theorem explorarLaco_sem_sair (entradas : List (Option Nat))
    (h : ∀ x ∈ entradas, ¬ escolhaSair x) (e : Estado) : explorarLaco e entradas = none := by
  induction entradas generalizing e with
  | nil => rfl
  | cons x xs ih =>
    have hx : ¬ escolhaSair x := h x (by simp)
    have hxs : ∀ y ∈ xs, ¬ escolhaSair y := fun y hy => h y (by simp [hy])
    simp only [explorarLaco]
    cases hm : e.mapa[e.atual]? with
    | none => simp [passo, hm]
    | some s =>
      cases hp : passo e x with
      | none => rfl
      | some p =>
        cases p with
        | continua e1 => exact ih hxs e1
        | retorna e1 => exact absurd ((passo_retorna_iff e s x hm).mp ⟨e1, hp⟩) hx

theorem entrarSala_nome (s : Sala) (arv : PistaNode) :
    (entrarSala s arv).1.nome = s.nome := by
  unfold entrarSala
  split_ifs <;> rfl

theorem lt_length_of_getElem? {α : Type} (m : List α) (a : Nat) (s : α)
    (hs : m[a]? = some s) : a < m.length := by
  rcases Nat.lt_or_ge a m.length with h | h
  · exact h
  · rw [List.getElem?_eq_none h] at hs; cases hs

/-- What entering the room at `a` does to the room at `i`: its name and links
stay, and its clue stays unless `i` is `a`. -/
theorem set_entrar_moldura (m : List Sala) (a : Nat) (s0 : Sala) (arv : PistaNode)
    (hs : m[a]? = some s0) (i : Nat) (s : Sala) (hi : m[i]? = some s) :
    ∃ s2, (m.set a (entrarSala s0 arv).1)[i]? = some s2 ∧ s2.nome = s.nome ∧
      s2.esquerda = s.esquerda ∧ s2.direita = s.direita ∧
      s2.pista = if i = a then [] else s.pista := by
  by_cases hia : i = a
  · subst hia
    have hlt := lt_length_of_getElem? m i s0 hs
    have hss : s = s0 := Option.some.inj (hi.symm.trans hs)
    subst hss
    refine ⟨(entrarSala s arv).1, List.getElem?_set_self hlt, entrarSala_nome s arv,
      entrarSala_esquerda s arv, entrarSala_direita s arv, ?_⟩
    rw [if_pos rfl]
    exact entrarSala_pista s arv
  · refine ⟨s, ?_, rfl, rfl, rfl, ?_⟩
    · rw [List.getElem?_set_ne (fun h => hia h.symm)]; exact hi
    · rw [if_neg hia]

/-- Frame of the loop: names and links never change, the clue field of a room
is emptied when the room is entered and kept otherwise. -/
theorem explorarLaco_moldura (entradas : List (Option Nat)) (e e1 : Estado)
    (h : explorarLaco e entradas = some e1) :
    e1.mapa.length = e.mapa.length ∧
    ∀ i s, e.mapa[i]? = some s → ∃ s1, e1.mapa[i]? = some s1 ∧ s1.nome = s.nome ∧
      s1.esquerda = s.esquerda ∧ s1.direita = s.direita ∧
      s1.pista = if i ∈ salasEntradas e entradas then [] else s.pista := by
  induction entradas generalizing e with
  | nil => simp [explorarLaco] at h
  | cons x xs ih =>
    cases hm : e.mapa[e.atual]? with
    | none => simp [explorarLaco, passo, hm] at h
    | some s0 =>
      have hp := passo_eq e s0 x hm
      cases hesc : escolher (entrarSala s0 e.arvorePistas).1 e.atual x with
      | continua prox =>
        rw [hesc] at hp
        simp only [explorarLaco, hp] at h
        obtain ⟨hlen, hfr⟩ := ih _ h
        simp only [List.length_set] at hlen
        refine ⟨hlen, ?_⟩
        intro i s hi
        obtain ⟨s2, h2, hn2, he2, hd2, hp2⟩ :=
          set_entrar_moldura e.mapa e.atual s0 e.arvorePistas hm i s hi
        obtain ⟨s1, h1, hn1, he1, hd1, hp1⟩ := hfr i s2 h2
        refine ⟨s1, h1, hn1.trans hn2, he1.trans he2, hd1.trans hd2, ?_⟩
        simp only [salasEntradas, hp, List.mem_cons]
        rw [hp1, hp2]
        by_cases hia : i = e.atual
        · simp [hia]
        · simp [hia]
      | encerra =>
        rw [hesc] at hp
        simp only [explorarLaco, hp, Option.some.injEq] at h
        subst h
        refine ⟨by simp, ?_⟩
        intro i s hi
        obtain ⟨s2, h2, hn2, he2, hd2, hp2⟩ :=
          set_entrar_moldura e.mapa e.atual s0 e.arvorePistas hm i s hi
        refine ⟨s2, h2, hn2, he2, hd2, ?_⟩
        simp only [salasEntradas, hp, List.mem_singleton]
        exact hp2

/-! ## Facts about the game built by `main` -/

/-- The choice made depends on the input only through its class: left, right,
exit, or anything else. -/
theorem escolher_classes (x : Option Nat) :
    ∃ y ∈ [some 101, some 100, some 115, (none : Option Nat)],
      ∀ (s : Sala) (a : Nat), escolher s a x = escolher s a y := by
  cases x with
  | none => exact ⟨none, by simp, fun _ _ => rfl⟩
  | some c =>
    have t101 : tolower 101 = 101 := by decide
    have t100 : tolower 100 = 100 := by decide
    have t115 : tolower 115 = 115 := by decide
    by_cases h1 : tolower c = 101
    · exact ⟨some 101, by simp, fun s a => by simp [escolher, h1, t101]⟩
    · by_cases h2 : tolower c = 100
      · exact ⟨some 100, by simp, fun s a => by simp [escolher, h2, t100]⟩
      · by_cases h3 : tolower c = 115
        · exact ⟨some 115, by simp, fun s a => by simp [escolher, h3, t115]⟩
        · exact ⟨none, by simp, fun s a => by simp [escolher, h1, h2, h3]⟩

theorem passo_classes (e : Estado) (x : Option Nat) :
    ∃ y ∈ [some 101, some 100, some 115, (none : Option Nat)], passo e x = passo e y := by
  obtain ⟨y, hy, hesc⟩ := escolher_classes x
  refine ⟨y, hy, ?_⟩
  simp only [passo, hesc]

set_option maxRecDepth 100000 in
theorem estadosMain_fechado :
    ∀ e ∈ estadosMain, ∀ y ∈ [some 101, some 100, some 115, (none : Option Nat)],
      passoFechado e y = true := by
  decide

set_option maxRecDepth 100000 in
theorem inicioMain_mem : inicioMain ∈ estadosMain := by
  decide

/-- However the game of `main` is played, the exploration returns with one of
the five summaries. -/
theorem explorarLaco_resumo (entradas : List (Option Nat)) (e e1 : Estado)
    (he : e ∈ estadosMain) (h : explorarLaco e entradas = some e1) :
    resumo e1 ∈ resumosMain := by
  induction entradas generalizing e with
  | nil => simp [explorarLaco] at h
  | cons x xs ih =>
    obtain ⟨y, hy, hxy⟩ := passo_classes e x
    have hf := estadosMain_fechado e he y hy
    simp only [explorarLaco, hxy] at h
    unfold passoFechado at hf
    cases hp : passo e y with
    | none => rw [hp] at hf; cases hf
    | some p =>
      cases p with
      | continua e2 =>
        rw [hp] at hf h
        exact ih e2 (of_decide_eq_true hf) h
      | retorna e2 =>
        rw [hp] at hf h
        simp only [Option.some.injEq] at h
        subst h
        exact of_decide_eq_true hf

theorem tolower_pos (x : Nat) (h : 0 < x) : 0 < tolower x := by
  unfold tolower
  split_ifs <;> omega

theorem strcmpIgnoreCase_cons_cons (x z : Nat) (xs zs : CStr) :
    strcmpIgnoreCase (x :: xs) (z :: zs) = 0 ↔
      tolower x = tolower z ∧ strcmpIgnoreCase xs zs = 0 := by
  by_cases h : tolower x = tolower z
  · simp [strcmpIgnoreCase, h]
  · simp only [strcmpIgnoreCase, ne_eq, h, not_false_eq_true, if_true, false_and, iff_false]
    omega

theorem strcmpIgnoreCase_nil_cons (z : Nat) (zs : CStr) :
    strcmpIgnoreCase [] (z :: zs) = 0 ↔ tolower z = 0 := by
  simp only [strcmpIgnoreCase, List.headD_nil, List.headD_cons]
  have : tolower 0 = 0 := by decide
  rw [this]
  omega

theorem strcmpIgnoreCase_cons_nil (x : Nat) (xs : CStr) :
    strcmpIgnoreCase (x :: xs) [] = 0 ↔ tolower x = 0 := by
  simp only [strcmpIgnoreCase, List.headD_nil, List.headD_cons]
  have : tolower 0 = 0 := by decide
  rw [this]
  omega

/-- Two stored names that both compare equal to one accused name are equal up
to the case of their letters. -/
theorem strcmpIgnoreCase_zero_zero (s1 s2 a : CStr) (h1 : IsCStr s1) (h2 : IsCStr s2)
    (e1 : strcmpIgnoreCase s1 a = 0) (e2 : strcmpIgnoreCase s2 a = 0) :
    s1.map tolower = s2.map tolower := by
  induction s1 generalizing s2 a with
  | nil =>
    cases s2 with
    | nil => rfl
    | cons y ys =>
      have hy := tolower_pos y (isCStr_cons.mp h2).1.1
      cases a with
      | nil =>
        rw [strcmpIgnoreCase_cons_nil] at e2
        omega
      | cons z zs =>
        rw [strcmpIgnoreCase_nil_cons] at e1
        rw [strcmpIgnoreCase_cons_cons] at e2
        omega
  | cons x xs ih =>
    have hx := tolower_pos x (isCStr_cons.mp h1).1.1
    cases a with
    | nil =>
      rw [strcmpIgnoreCase_cons_nil] at e1
      omega
    | cons z zs =>
      rw [strcmpIgnoreCase_cons_cons] at e1
      cases s2 with
      | nil =>
        rw [strcmpIgnoreCase_nil_cons] at e2
        omega
      | cons y ys =>
        rw [strcmpIgnoreCase_cons_cons] at e2
        simp only [List.map_cons]
        rw [e1.1, e2.1, ih ys zs (isCStr_cons.mp h1).2 (isCStr_cons.mp h2).2 e1.2 e2.2]

set_option maxRecDepth 100000 in
theorem aponta_bilhete (alvo : CStr) :
    apontaPara htMain alvo pistaBilhete = decide (strcmpIgnoreCase almeida alvo = 0) := by
  have h : buscarHash htMain (some pistaBilhete) = some almeida := by decide
  simp only [apontaPara, h]

set_option maxRecDepth 100000 in
theorem aponta_pegadas (alvo : CStr) :
    apontaPara htMain alvo pistaPegadas = decide (strcmpIgnoreCase beatriz alvo = 0) := by
  have h : buscarHash htMain (some pistaPegadas) = some beatriz := by decide
  simp only [apontaPara, h]

set_option maxRecDepth 100000 in
theorem aponta_faca (alvo : CStr) :
    apontaPara htMain alvo pistaFaca = decide (strcmpIgnoreCase carlos alvo = 0) := by
  have h : buscarHash htMain (some pistaFaca) = some carlos := by decide
  simp only [apontaPara, h]

set_option maxRecDepth 100000 in
theorem aponta_folha (alvo : CStr) :
    apontaPara htMain alvo pistaFolha = decide (strcmpIgnoreCase beatriz alvo = 0) := by
  have h : buscarHash htMain (some pistaFolha) = some beatriz := by decide
  simp only [apontaPara, h]

set_option maxRecDepth 100000 in
theorem aponta_livro (alvo : CStr) :
    apontaPara htMain alvo pistaLivro = decide (strcmpIgnoreCase carlos alvo = 0) := by
  have h : buscarHash htMain (some pistaLivro) = some carlos := by decide
  simp only [apontaPara, h]

/-- No accused name compares equal to two of the three suspects of `main`. -/
theorem suspeitos_distintos (alvo : CStr) :
    ¬ (strcmpIgnoreCase almeida alvo = 0 ∧ strcmpIgnoreCase beatriz alvo = 0) ∧
    ¬ (strcmpIgnoreCase almeida alvo = 0 ∧ strcmpIgnoreCase carlos alvo = 0) ∧
    ¬ (strcmpIgnoreCase beatriz alvo = 0 ∧ strcmpIgnoreCase carlos alvo = 0) := by
  have ha : IsCStr almeida := by decide
  have hb : IsCStr beatriz := by decide
  have hc : IsCStr carlos := by decide
  refine ⟨?_, ?_, ?_⟩
  · rintro ⟨h1, h2⟩
    exact absurd (strcmpIgnoreCase_zero_zero almeida beatriz alvo ha hb h1 h2) (by decide)
  · rintro ⟨h1, h2⟩
    exact absurd (strcmpIgnoreCase_zero_zero almeida carlos alvo ha hc h1 h2) (by decide)
  · rintro ⟨h1, h2⟩
    exact absurd (strcmpIgnoreCase_zero_zero beatriz carlos alvo hb hc h1 h2) (by decide)

/-- The count of each of the five summaries, against any accused name. -/
theorem resumo_contagem (r : List CStr × List Bool) (hr : r ∈ resumosMain) (alvo : CStr) :
    (2 ≤ (r.1.filter (apontaPara htMain alvo)).length ↔
      (strcmpIgnoreCase beatriz alvo = 0 ∧ r.2[3]? = some true) ∨
      (strcmpIgnoreCase carlos alvo = 0 ∧ r.2[4]? = some true)) ∧
    (r.1.filter (apontaPara htMain alvo)).length ≤ 2 ∧
    (strcmpIgnoreCase almeida alvo = 0 → (r.1.filter (apontaPara htMain alvo)).length < 2) := by
  obtain ⟨hab, hac, hbc⟩ := suspeitos_distintos alvo
  simp only [resumosMain, List.mem_cons, List.mem_singleton, List.not_mem_nil, or_false] at hr
  by_cases ha : strcmpIgnoreCase almeida alvo = 0 <;>
  by_cases hb : strcmpIgnoreCase beatriz alvo = 0 <;>
  by_cases hc : strcmpIgnoreCase carlos alvo = 0 <;>
  first
  | (exfalso; tauto)
  | (rcases hr with rfl | rfl | rfl | rfl | rfl <;>
      simp [List.filter_cons, aponta_bilhete, aponta_pegadas, aponta_faca, aponta_folha,
        aponta_livro, ha, hb, hc])

/-- In the game of `main`, the clue field of a room is empty after the
exploration exactly when the room was entered. -/
theorem main_entrada_iff (entradas : List (Option Nat)) (e1 : Estado)
    (h : explorarLaco inicioMain entradas = some e1) (i : Nat) (hi : i < 5) :
    (resumo e1).2[i]? = some true ↔ i ∈ salasEntradas inicioMain entradas := by
  obtain ⟨_, hfr⟩ := explorarLaco_moldura entradas inicioMain e1 h
  have hlt : i < inicioMain.mapa.length := hi
  obtain ⟨s1, hs1, _, _, _, hp⟩ := hfr i (inicioMain.mapa[i]) (List.getElem?_eq_getElem hlt)
  have hne : (inicioMain.mapa[i]).pista ≠ [] := by
    have hall : ∀ j (hj : j < 5), (inicioMain.mapa[j]).pista ≠ [] := by decide
    exact hall i hi
  simp only [resumo, List.getElem?_map, hs1, Option.map_some', Option.some.injEq,
    decide_eq_true_eq, hp]
  by_cases hm : i ∈ salasEntradas inicioMain entradas
  · simp [hm]
  · simp [hm, hne]

/-! ## The claims -/

/-- C1: for every sequence of texts inserted one by one with `inserirPista`
into the empty clue index, the in-order traversal is strictly ascending under
the `strcmp` order, holds no text twice, and holds exactly the non-empty texts
of the sequence. -/
theorem inorder_inserirTodas_sorted_exact (textos : List CStr)
    (htx : ∀ t ∈ textos, IsCStr t) :
    (exibirPistasRec (inserirTodas .nulo textos)).Pairwise (fun a b => strcmp a b < 0) ∧
    (exibirPistasRec (inserirTodas .nulo textos)).Nodup ∧
    ∀ x : CStr, x ∈ exibirPistasRec (inserirTodas .nulo textos) ↔ (x ∈ textos ∧ x ≠ []) := by
  obtain ⟨h1, h2, h3⟩ := inserirTodas_inv textos htx .nulo trivial
    (by intro x hx; simp [exibirPistasRec] at hx)
  have hp := pairwise_of_ordenada _ h1 h2
  refine ⟨hp, nodup_of_pairwise_menor hp, ?_⟩
  intro x
  have hmem := h3 x
  simp only [exibirPistasRec, List.not_mem_nil, false_or] at hmem
  exact hmem

/-- Witness for C1 on the insertion order "b", "a", "", "b". -/
theorem inorder_inserirTodas_sorted_exact_witness :
    (exibirPistasRec (inserirTodas .nulo [[98], [97], [], [98]])).Pairwise
        (fun a b => strcmp a b < 0) ∧
    (exibirPistasRec (inserirTodas .nulo [[98], [97], [], [98]])).Nodup ∧
    ∀ x : CStr, x ∈ exibirPistasRec (inserirTodas .nulo [[98], [97], [], [98]]) ↔
      (x ∈ [[98], [97], [], [98]] ∧ x ≠ []) :=
  inorder_inserirTodas_sorted_exact [[98], [97], [], [98]] (by decide)

/-- C2: in a table initialised by `iniciarHashTable` and filled by a sequence
of `inserirHash` calls, `buscarHash` on a non-empty key returns the suspect
name of the last call with exactly that key: for a call `c` with no later call
on the same key, whatever the calls before and after, the lookup of `c.1`
returns `c.2`. -/
theorem buscarHash_returns_last_binding (antes depois : List Chamada) (c : Chamada)
    (hwf : ∀ d ∈ antes ++ c :: depois, IsCStr d.1)
    (hne : c.1 ≠ [])
    (hlast : ∀ d ∈ depois, d.1 ≠ c.1) :
    buscarHash (inserirChamadas iniciarHashTable (antes ++ c :: depois)) (some c.1) =
      some c.2 := by
  have hc : IsCStr c.1 := hwf c (by simp)
  have hsplit : inserirChamadas iniciarHashTable (antes ++ c :: depois) =
      inserirChamadas
        (inserirHash (inserirChamadas iniciarHashTable antes) (some c.1) (some c.2)) depois := by
    rw [inserirChamadas_append]; rfl
  have hlen : (inserirChamadas iniciarHashTable antes).tabela.length = HASH_TABLE_SIZE := by
    rw [length_inserirChamadas, length_iniciarHashTable]
  rw [hsplit, buscarHash_inserirChamadas_outros depois c.1 hc
      (fun d hd => hwf d (by simp [hd])) (fun d hd => Or.inl (hlast d hd)) _
      (by rw [length_inserirHash, hlen]),
    buscarHash_inserirHash _ hlen c.1 c.1 _ hc hc, if_pos ⟨rfl, hne⟩]

/-- Witness for C2: key "a" bound to "x", then "b" to "y", then "a" to "z",
then "c" to "w"; the lookup of "a" gives "z". -/
theorem buscarHash_returns_last_binding_witness :
    buscarHash (inserirChamadas iniciarHashTable
      ([([97], [120]), ([98], [121])] ++ ([97], [122]) :: [([99], [119])])) (some [97]) =
      some [122] :=
  buscarHash_returns_last_binding [([97], [120]), ([98], [121])] [([99], [119])]
    ([97], [122]) (by decide) (by decide) (by decide)

/-- C3: `contarPistasParaSuspeito` returns exactly the number of clues of the
in-order enumeration whose lookup in the directory is present and whose bound
name compares equal to the given name under `strcmpIgnoreCase`; a clue with
no binding adds nothing.  It holds for every tree, built by `inserirPista` or
not. -/
theorem contarPistasParaSuspeito_eq_count (raiz : PistaNode) (ht : HashTable)
    (suspeitoAlvo : CStr) :
    contarPistasParaSuspeito raiz ht (some suspeitoAlvo) =
      ((exibirPistasRec raiz).filter (fun c =>
        match buscarHash ht (some c) with
        | some sus => decide (strcmpIgnoreCase sus suspeitoAlvo = 0)
        | none => false)).length :=
  contar_eq_filter raiz ht suspeitoAlvo

/-- C4: two sequences of clue texts with the same non-empty texts give clue
indexes with the same `contarPistasParaSuspeito` result, for every directory
and every suspect name. -/
theorem contarPistasParaSuspeito_order_independent (t1 t2 : List CStr)
    (h1 : ∀ t ∈ t1, IsCStr t) (h2 : ∀ t ∈ t2, IsCStr t)
    (h12 : ∀ x ∈ t1, x ≠ [] → x ∈ t2) (h21 : ∀ x ∈ t2, x ≠ [] → x ∈ t1)
    (ht : HashTable) (suspeitoAlvo : Option CStr) :
    contarPistasParaSuspeito (inserirTodas .nulo t1) ht suspeitoAlvo =
      contarPistasParaSuspeito (inserirTodas .nulo t2) ht suspeitoAlvo := by
  cases suspeitoAlvo with
  | none => rw [contar_none, contar_none]
  | some alvo =>
    rw [contar_eq_filter, contar_eq_filter, exibir_inserirTodas_congr t1 t2 h1 h2 h12 h21]

/-- Witness for C4: "b", "a" against "a", "", "b", "a", with "a" and "b" both
bound to "X" and the name "x" accused. -/
theorem contarPistasParaSuspeito_order_independent_witness :
    contarPistasParaSuspeito (inserirTodas .nulo [[98], [97]])
        (inserirChamadas iniciarHashTable [([97], [88]), ([98], [88])]) (some [120]) =
      contarPistasParaSuspeito (inserirTodas .nulo [[97], [], [98], [97]])
        (inserirChamadas iniciarHashTable [([97], [88]), ([98], [88])]) (some [120]) :=
  contarPistasParaSuspeito_order_independent [[98], [97]] [[97], [], [98], [97]]
    (by decide) (by decide) (by decide) (by decide) _ _

/-- C5: two suspect names that are byte-for-byte equal once A-Z is mapped to
a-z get the same count, for every clue index and every directory. -/
theorem contarPistasParaSuspeito_case_insensitive (raiz : PistaNode) (ht : HashTable)
    (a b : CStr) (hab : a.map tolower = b.map tolower) :
    contarPistasParaSuspeito raiz ht (some a) = contarPistasParaSuspeito raiz ht (some b) := by
  rw [contar_eq_filter, contar_eq_filter]
  congr 2
  funext c
  simp only [apontaPara]
  cases buscarHash ht (some c) with
  | none => rfl
  | some sus => simp only [strcmpIgnoreCase_congr sus a b hab]

/-- Witness for C5: the names "sr" and "Sr" on a clue index holding "a", with
"a" bound to "Sr". -/
theorem contarPistasParaSuspeito_case_insensitive_witness :
    contarPistasParaSuspeito (inserirTodas .nulo [[97]])
        (inserirChamadas iniciarHashTable [([97], [83, 114])]) (some [115, 114]) =
      contarPistasParaSuspeito (inserirTodas .nulo [[97]])
        (inserirChamadas iniciarHashTable [([97], [83, 114])]) (some [83, 114]) :=
  contarPistasParaSuspeito_case_insensitive _ _ [115, 114] [83, 114] (by decide)

/-- C6: in a clue index built by `inserirPista` from the empty tree, inserting
a text that the index already holds returns the very same tree, through
`inserirPistaRec` and through `inserirPista`. -/
theorem inserirPista_duplicate_unchanged (textos : List CStr)
    (htx : ∀ t ∈ textos, IsCStr t) (t : CStr)
    (hm : t ∈ exibirPistasRec (inserirTodas .nulo textos)) :
    inserirPistaRec (inserirTodas .nulo textos) (some t) = inserirTodas .nulo textos ∧
    inserirPista (inserirTodas .nulo textos) (some t) = inserirTodas .nulo textos := by
  obtain ⟨h1, _, _⟩ := inserirTodas_inv textos htx .nulo trivial
    (by intro x hx; simp [exibirPistasRec] at hx)
  have h := inserirPistaRec_of_mem _ h1 t hm
  exact ⟨h, by rw [inserirPista_eq_rec, h]⟩

/-- Witness for C6: "a" inserted again into the index built from "b", "a", "c". -/
theorem inserirPista_duplicate_unchanged_witness :
    inserirPistaRec (inserirTodas .nulo [[98], [97], [99]]) (some [97]) =
        inserirTodas .nulo [[98], [97], [99]] ∧
    inserirPista (inserirTodas .nulo [[98], [97], [99]]) (some [97]) =
        inserirTodas .nulo [[98], [97], [99]] :=
  inserirPista_duplicate_unchanged [[98], [97], [99]] (by decide) [97] (by decide)

/-- C7: inserting the empty string returns the tree unchanged, through
`inserirPista` and through `inserirPistaRec`, and no insertion of any text
brings a node with empty text into a tree. -/
theorem inserirPista_empty_noop (raiz : PistaNode) (texto : Option CStr) :
    inserirPista raiz (some []) = raiz ∧
    inserirPistaRec raiz (some []) = raiz ∧
    (([] : CStr) ∈ exibirPistasRec (inserirPistaRec raiz texto) ↔
      ([] : CStr) ∈ exibirPistasRec raiz) ∧
    (([] : CStr) ∈ exibirPistasRec (inserirPista raiz texto) ↔
      ([] : CStr) ∈ exibirPistasRec raiz) := by
  have hrec : (([] : CStr) ∈ exibirPistasRec (inserirPistaRec raiz texto) ↔
      ([] : CStr) ∈ exibirPistasRec raiz) := by
    cases texto with
    | none => simp [inserirPistaRec]
    | some t =>
      by_cases ht : t = []
      · subst ht; rw [inserirPistaRec_vazio]
      · constructor
        · intro h
          rcases mem_inserir_imp ht raiz [] h with h | h
          · exact absurd h.symm ht
          · exact h
        · exact mem_inserir_of_mem t raiz []
  refine ⟨by rw [inserirPista_eq_rec, inserirPistaRec_vazio], inserirPistaRec_vazio raiz,
    hrec, ?_⟩
  cases texto with
  | none => simp [inserirPista]
  | some t => rw [inserirPista_eq_rec]; exact hrec

/-- C8 as stated fails: after `inserirHash(ht, "a", "x")` and then
`inserirHash(ht, "a", NULL)` the lookup of "a" returns `NULL`, although "a" is
not empty and two calls of the sequence have that very key. -/
theorem buscarHash_absent_iff_counterexample :
    ¬ (buscarHash (inserirChamadasGerais iniciarHashTable
          [(some [97], some [120]), (some [97], none)]) (some [97]) = none ↔
        (([97] : CStr) = [] ∨
          ∀ c ∈ [((some [97], some [120]) : ChamadaGeral), (some [97], none)],
            c.1 ≠ some [97])) := by
  decide

/-- C8, amended: in a table initialised by `iniciarHashTable` and filled by any
sequence of `inserirHash` calls, `buscarHash` on a key returns `NULL` exactly
when the key is empty, or no call of the sequence has that very key, or the
last call with that key passed `NULL` as suspect; so when every call passes a
suspect name, it returns `NULL` exactly when the key is empty or no call has
that very key; and `inserirHash` with an empty key returns the table
unchanged. -/
theorem buscarHash_absent_iff (chamadas : List ChamadaGeral) (k : CStr)
    (hwf : ∀ c ∈ chamadas, ∀ p, c.1 = some p → IsCStr p) (hk : IsCStr k) :
    (buscarHash (inserirChamadasGerais iniciarHashTable chamadas) (some k) = none ↔
      (k = [] ∨ (∀ c ∈ chamadas, c.1 ≠ some k) ∨
        ∃ c, ultimaChamada chamadas k = some c ∧ c.2 = none)) ∧
    ((∀ c ∈ chamadas, c.2 ≠ none) →
      (buscarHash (inserirChamadasGerais iniciarHashTable chamadas) (some k) = none ↔
        (k = [] ∨ ∀ c ∈ chamadas, c.1 ≠ some k))) ∧
    ∀ (ht : HashTable) (suspeito : Option CStr), inserirHash ht (some []) suspeito = ht := by
  have hnone : ultimaChamada chamadas k = none ↔ ∀ c ∈ chamadas, c.1 ≠ some k := by
    simp only [ultimaChamada, List.find?_eq_none, List.mem_reverse, decide_eq_true_eq]
  have hmem : ∀ c, ultimaChamada chamadas k = some c → c ∈ chamadas := by
    intro c hc
    have := List.mem_of_find?_eq_some hc
    simpa using this
  have hgeral : buscarHash (inserirChamadasGerais iniciarHashTable chamadas) (some k) = none ↔
      (k = [] ∨ (∀ c ∈ chamadas, c.1 ≠ some k) ∨
        ∃ c, ultimaChamada chamadas k = some c ∧ c.2 = none) := by
    by_cases hke : k = []
    · subst hke
      rw [buscarHash_inserirChamadasGerais_vazio chamadas hwf iniciarHashTable
        length_iniciarHashTable, buscarHash_iniciar]
      simp
    · rw [buscarHash_inserirChamadasGerais chamadas k hk hke hwf iniciarHashTable
        length_iniciarHashTable, buscarHash_iniciar, ← hnone]
      cases hu : ultimaChamada chamadas k with
      | none => simp
      | some c => simp [hke]
  refine ⟨hgeral, ?_, fun ht s => by simp [inserirHash]⟩
  intro hsus
  rw [hgeral]
  constructor
  · rintro (h | h | ⟨c, hc, hc2⟩)
    · exact Or.inl h
    · exact Or.inr h
    · exact absurd hc2 (hsus c (hmem c hc))
  · rintro (h | h)
    · exact Or.inl h
    · exact Or.inr (Or.inl h)

/-- Witness for C8: "a" bound to "x", then "a" called with `NULL`, then "b"
bound to "y"; the key "a" is looked up. -/
theorem buscarHash_absent_iff_witness :
    (buscarHash (inserirChamadasGerais iniciarHashTable
        [(some [97], some [120]), (some [97], none), (some [98], some [121])])
        (some [97]) = none ↔
      (([97] : CStr) = [] ∨
        (∀ c ∈ [((some [97], some [120]) : ChamadaGeral), (some [97], none),
          (some [98], some [121])], c.1 ≠ some [97]) ∨
        ∃ c, ultimaChamada [(some [97], some [120]), (some [97], none),
          (some [98], some [121])] [97] = some c ∧ c.2 = none)) ∧
    ((∀ c ∈ [((some [97], some [120]) : ChamadaGeral), (some [97], none),
        (some [98], some [121])], c.2 ≠ none) →
      (buscarHash (inserirChamadasGerais iniciarHashTable
          [(some [97], some [120]), (some [97], none), (some [98], some [121])])
          (some [97]) = none ↔
        (([97] : CStr) = [] ∨
          ∀ c ∈ [((some [97], some [120]) : ChamadaGeral), (some [97], none),
            (some [98], some [121])], c.1 ≠ some [97]))) ∧
    ∀ (ht : HashTable) (suspeito : Option CStr), inserirHash ht (some []) suspeito = ht :=
  buscarHash_absent_iff [(some [97], some [120]), (some [97], none), (some [98], some [121])]
    [97] (by decide) (by decide)

/-- C9: the enter-room step of the exploration loop leaves the clue field of
the room empty; entering the same room again changes neither the room nor the
clue index, whatever the index has become in between; so any number of
entries into a room, one or more, has the effect of the first entry alone. -/
theorem entrarSala_collects_once (s : Sala) (arvorePistas outra : PistaNode) (n : Nat) :
    (entrarSala s arvorePistas).1.pista = [] ∧
    entrarSala (entrarSala s arvorePistas).1 (entrarSala s arvorePistas).2 =
      entrarSala s arvorePistas ∧
    entrarSala (entrarSala s arvorePistas).1 outra = ((entrarSala s arvorePistas).1, outra) ∧
    (fun r : Sala × PistaNode => entrarSala r.1 r.2)^[n + 1] (s, arvorePistas) =
      entrarSala s arvorePistas := by
  have h0 := entrarSala_pista s arvorePistas
  refine ⟨h0, entrarSala_of_vazia _ _ h0, entrarSala_of_vazia _ _ h0, ?_⟩
  induction n with
  | zero => rfl
  | succ k ih =>
    rw [Function.iterate_succ_apply', ih]
    exact entrarSala_of_vazia _ _ h0

/-- C10: in a pass of the exploration loop, the choice left in a room with no
left child, the choice right in a room with no right child, and a character
that is none of the three choices all keep the current room and do not end
the exploration: the loop goes on from the same room with the next input. -/
theorem invalid_choice_keeps_room (e : Estado) (s : Sala) (c : Nat)
    (resto : List (Option Nat))
    (hs : e.mapa[e.atual]? = some s)
    (hinv : (tolower c = 101 ∧ s.esquerda = none) ∨ (tolower c = 100 ∧ s.direita = none) ∨
      (tolower c ≠ 101 ∧ tolower c ≠ 100 ∧ tolower c ≠ 115)) :
    escolher (entrarSala s e.arvorePistas).1 e.atual (some c) = .continua e.atual ∧
    passo e (some c) = some (.continua
      { mapa := e.mapa.set e.atual (entrarSala s e.arvorePistas).1
        atual := e.atual
        arvorePistas := (entrarSala s e.arvorePistas).2 }) ∧
    explorarLaco e (some c :: resto) = explorarLaco
      { mapa := e.mapa.set e.atual (entrarSala s e.arvorePistas).1
        atual := e.atual
        arvorePistas := (entrarSala s e.arvorePistas).2 } resto := by
  have h1 : escolher (entrarSala s e.arvorePistas).1 e.atual (some c) = .continua e.atual := by
    rcases hinv with ⟨hc, hl⟩ | ⟨hc, hr⟩ | ⟨h101, h100, h115⟩
    · simp [escolher, hc, entrarSala_esquerda, hl]
    · simp [escolher, hc, entrarSala_direita, hr]
    · simp [escolher, h101, h100, h115]
  have h2 : passo e (some c) = some (.continua
      { mapa := e.mapa.set e.atual (entrarSala s e.arvorePistas).1
        atual := e.atual
        arvorePistas := (entrarSala s e.arvorePistas).2 }) := by
    simp only [passo, hs, h1]
  refine ⟨h1, h2, ?_⟩
  simp only [explorarLaco, h2]

/-- Witness for C10: the choice 'e' in a lone room holding the clue "P". -/
theorem invalid_choice_keeps_room_witness :
    escolher (entrarSala ⟨[72], [80], none, none⟩ .nulo).1 0 (some 101) = .continua 0 ∧
    passo ⟨[⟨[72], [80], none, none⟩], 0, .nulo⟩ (some 101) = some (.continua
      { mapa := [(entrarSala ⟨[72], [80], none, none⟩ .nulo).1]
        atual := 0
        arvorePistas := (entrarSala ⟨[72], [80], none, none⟩ .nulo).2 }) ∧
    explorarLaco ⟨[⟨[72], [80], none, none⟩], 0, .nulo⟩ [some 101, some 115] = explorarLaco
      { mapa := [(entrarSala ⟨[72], [80], none, none⟩ .nulo).1]
        atual := 0
        arvorePistas := (entrarSala ⟨[72], [80], none, none⟩ .nulo).2 } [some 115] :=
  invalid_choice_keeps_room ⟨[⟨[72], [80], none, none⟩], 0, .nulo⟩ ⟨[72], [80], none, none⟩ 101
    [some 115] (by decide) (by decide)

/-- C11: in a pass of the exploration loop, in any room, a leaf included, the
function returns exactly when the choice read is the exit choice, and the loop
goes on exactly when it is not; a run of inputs with no exit choice among them
never makes the exploration return. -/
theorem exit_only_by_choice (e : Estado) (s : Sala) (entrada : Option Nat)
    (entradas : List (Option Nat)) (hs : e.mapa[e.atual]? = some s) :
    ((∃ e1, passo e entrada = some (.retorna e1)) ↔ escolhaSair entrada) ∧
    ((∃ e1, passo e entrada = some (.continua e1)) ↔ ¬ escolhaSair entrada) ∧
    ((∀ x ∈ entradas, ¬ escolhaSair x) → explorarLaco e entradas = none) :=
  ⟨passo_retorna_iff e s entrada hs, passo_continua_iff e s entrada hs,
    fun h => explorarLaco_sem_sair entradas h e⟩

/-- Witness for C11: a lone leaf room and the choice 'e'. -/
theorem exit_only_by_choice_witness :
    ((∃ e1, passo ⟨[⟨[72], [80], none, none⟩], 0, .nulo⟩ (some 101) = some (.retorna e1)) ↔
      escolhaSair (some 101)) ∧
    ((∃ e1, passo ⟨[⟨[72], [80], none, none⟩], 0, .nulo⟩ (some 101) = some (.continua e1)) ↔
      ¬ escolhaSair (some 101)) ∧
    ((∀ x ∈ [some 101, some 100, none], ¬ escolhaSair x) →
      explorarLaco ⟨[⟨[72], [80], none, none⟩], 0, .nulo⟩ [some 101, some 100, none] = none) :=
  exit_only_by_choice ⟨[⟨[72], [80], none, none⟩], 0, .nulo⟩ ⟨[72], [80], none, none⟩
    (some 101) [some 101, some 100, none] (by decide)

set_option maxRecDepth 100000 in
/-- C12: in the game built by `main`, the choices left, left, exit enter Hall
de Entrada, Sala de Estar and Jardim; the clue index then prints exactly
"Bilhete com endereço", "Folha rasgada", "Pegadas no tapete"; the count for
"Sra. Beatriz" is 2 and `main` reports the accusation as sustained. -/
theorem scenario_left_left_exit :
    salasEntradas ⟨mapaMain, 0, .nulo⟩ [some 101, some 101, some 115] = [0, 1, 3] ∧
    (explorarSalasComPistas mapaMain (some 0) .nulo [some 101, some 101, some 115]).map
        (fun r => exibirPistasRec r.2) =
      some [[66, 105, 108, 104, 101, 116, 101, 32, 99, 111, 109, 32, 101, 110, 100, 101, 114,
              101, 195, 167, 111],
            [70, 111, 108, 104, 97, 32, 114, 97, 115, 103, 97, 100, 97],
            [80, 101, 103, 97, 100, 97, 115, 32, 110, 111, 32, 116, 97, 112, 101, 116, 101]] ∧
    (explorarSalasComPistas mapaMain (some 0) .nulo [some 101, some 101, some 115]).map
        (fun r => contarPistasParaSuspeito r.2 htMain
          (some [83, 114, 97, 46, 32, 66, 101, 97, 116, 114, 105, 122])) = some 2 ∧
    main [some 101, some 101, some 115]
        (some [83, 114, 97, 46, 32, 66, 101, 97, 116, 114, 105, 122, 10]) =
      some (.sustentada 2) := by
  decide

set_option maxRecDepth 100000 in
/-- C13: in the game built by `main`, the single choice exit enters Hall de
Entrada only; the clue index then prints exactly "Bilhete com endereço"; the
count for "Sr. Almeida" is 1 and `main` reports the accusation as not
sustained. -/
theorem scenario_exit_only :
    salasEntradas ⟨mapaMain, 0, .nulo⟩ [some 115] = [0] ∧
    (explorarSalasComPistas mapaMain (some 0) .nulo [some 115]).map
        (fun r => exibirPistasRec r.2) =
      some [[66, 105, 108, 104, 101, 116, 101, 32, 99, 111, 109, 32, 101, 110, 100, 101, 114,
              101, 195, 167, 111]] ∧
    (explorarSalasComPistas mapaMain (some 0) .nulo [some 115]).map
        (fun r => contarPistasParaSuspeito r.2 htMain
          (some [83, 114, 46, 32, 65, 108, 109, 101, 105, 100, 97])) = some 1 ∧
    main [some 115] (some [83, 114, 46, 32, 65, 108, 109, 101, 105, 100, 97, 10]) =
      some (.naoSustentada 1) := by
  decide

/-- C14: the verdict of `main` for a count is "sustained" exactly when the
count is at least 2 and "not sustained" exactly when it is below 2; and this
is the verdict `main` gives on the count of `contarPistasParaSuspeito` for the
line read, whenever the clue index is not empty. -/
theorem veredito_threshold (total : Nat) (pista : CStr) (esq dir : PistaNode)
    (ht : HashTable) (acusacao : CStr) :
    (veredito total = .sustentada total ↔ total ≥ 2) ∧
    (veredito total = .naoSustentada total ↔ total < 2) ∧
    acusar (.no pista esq dir) ht (some acusacao) =
      veredito (contarPistasParaSuspeito (.no pista esq dir) ht
        (some (removerNovaLinha acusacao))) := by
  refine ⟨?_, ?_, rfl⟩
  · unfold veredito
    split_ifs with h
    · simp [h]
    · simp [h]
  · unfold veredito
    split_ifs with h
    · simp; omega
    · simp; omega

/-- C15: `hash_djb2` is the djb2 reference (from 5381, `h := h * 33 + byte`
over the bytes in order, wrapping modulo `2 ^ 64`), the code's `(h << 5) + h`
being `h * 33` modulo `2 ^ 64`; and the bucket that `buscarHash` scans and
that `inserirHash` prepends to is the one at that value modulo 101. -/
theorem hash_djb2_is_reference (key : CStr) (h : Nat) (ht : HashTable)
    (suspeito : Option CStr) :
    hash_djb2 key = djb2Ref 64 key ∧
    ((h <<< 5) % 2 ^ 64 + h) % 2 ^ 64 = (h * 33) % 2 ^ 64 ∧
    buscarHash ht (some key) = buscarCadeia (ht.tabela.getD (djb2Ref 64 key % 101) []) key ∧
    inserirHash ht (some key) suspeito =
      if key = [] then ht
      else ⟨ht.tabela.set (djb2Ref 64 key % 101)
        ({ chave := key, suspeito := suspeito } :: ht.tabela.getD (djb2Ref 64 key % 101) [])⟩ := by
  have h1 : hash_djb2 key = djb2Ref 64 key := hash_djb2_eq_ref key
  refine ⟨h1, ?_, ?_, ?_⟩
  · have := djb2_passo h 0
    simpa [ULONG_BITS] using this
  · simp only [buscarHash, h1, HASH_TABLE_SIZE]
  · by_cases hk : key = []
    · simp [inserirHash, hk]
    · simp only [inserirHash, hk, if_false, h1, HASH_TABLE_SIZE]

/-- C16: `criarSala` leaves in the array `nome` the first `min (len nome) 59`
bytes of the name, in the array `pista` the first `min (len pista) 119` bytes
of a non-empty clue and the empty string for a `NULL` or empty clue, whatever
`malloc` left in the two arrays, and both child links `NULL`. -/
theorem criarSala_fields (nome : CStr) (pista : Option CStr) (lixoNome lixoPista : List Nat)
    (hn : IsCStr nome) (hp : ∀ p, pista = some p → IsCStr p)
    (hl1 : lixoNome.length = MAX_NOME) (hl2 : lixoPista.length = MAX_PISTA) :
    lerCStr (criarSalaNome lixoNome nome) = nome.take (min nome.length 59) ∧
    lerCStr (criarSalaPista lixoPista pista) =
      (match pista with
       | some p => p.take (min p.length 119)
       | none => []) ∧
    (criarSala nome pista).nome = lerCStr (criarSalaNome lixoNome nome) ∧
    (criarSala nome pista).pista = lerCStr (criarSalaPista lixoPista pista) ∧
    (criarSala nome pista).esquerda = none ∧
    (criarSala nome pista).direita = none := by
  have hmin : ∀ (l : CStr) (n : Nat), l.take (min l.length n) = l.take n := by
    intro l n
    by_cases h : l.length ≤ n
    · rw [Nat.min_eq_left h, List.take_of_length_le h, List.take_of_length_le (le_refl _)]
    · rw [Nat.min_eq_right (by omega)]
  have h1 : lerCStr (criarSalaNome lixoNome nome) = nome.take 59 :=
    lerCStr_strncpy_set lixoNome nome 59 hn hl1
  have h2 : lerCStr (criarSalaPista lixoPista pista) =
      (match pista with
       | some p => p.take 119
       | none => []) := by
    cases pista with
    | none => exact lerCStr_set_zero lixoPista (by rw [hl2]; decide)
    | some p =>
      by_cases hpe : p = []
      · subst hpe
        simp only [criarSalaPista, ne_eq, not_true_eq_false, if_false, List.take_nil]
        exact lerCStr_set_zero lixoPista (by rw [hl2]; decide)
      · simp only [criarSalaPista, ne_eq, hpe, not_false_eq_true, if_true]
        exact lerCStr_strncpy_set lixoPista p 119 (hp p rfl) hl2
  refine ⟨by rw [h1, hmin], ?_, ?_, ?_, rfl, rfl⟩
  · rw [h2]
    cases pista with
    | none => rfl
    | some p => simp only [hmin]
  · rw [h1]; rfl
  · rw [h2]
    cases pista with
    | none => rfl
    | some p =>
      by_cases hpe : p = []
      · subst hpe; simp [criarSala]
      · simp [criarSala, hpe, MAX_PISTA]

/-- Witness for C16: the name "Hall" and the clue "P" written over arrays
filled with the byte 255. -/
theorem criarSala_fields_witness :
    lerCStr (criarSalaNome (List.replicate 60 255) [72, 97, 108, 108]) =
      ([72, 97, 108, 108] : CStr).take (min ([72, 97, 108, 108] : CStr).length 59) ∧
    lerCStr (criarSalaPista (List.replicate 120 255) (some [80])) =
      (match (some [80] : Option CStr) with
       | some p => p.take (min p.length 119)
       | none => []) ∧
    (criarSala [72, 97, 108, 108] (some [80])).nome =
      lerCStr (criarSalaNome (List.replicate 60 255) [72, 97, 108, 108]) ∧
    (criarSala [72, 97, 108, 108] (some [80])).pista =
      lerCStr (criarSalaPista (List.replicate 120 255) (some [80])) ∧
    (criarSala [72, 97, 108, 108] (some [80])).esquerda = none ∧
    (criarSala [72, 97, 108, 108] (some [80])).direita = none :=
  criarSala_fields [72, 97, 108, 108] (some [80]) (List.replicate 60 255)
    (List.replicate 120 255) (by decide)
    (by intro p hp; cases hp; decide) (by decide) (by decide)

/-- C17: a call of `explorarSalasComPistas` that returns leaves every room
with its name and its two child links; the clue field of a room that was
entered is empty afterwards, and the clue field of a room that was never
entered is what it was. -/
theorem explorar_frame (mapa : List Sala) (inicio : Option Nat) (arvorePistas : PistaNode)
    (entradas : List (Option Nat)) (mapa1 : List Sala) (arvore1 : PistaNode)
    (h : explorarSalasComPistas mapa inicio arvorePistas entradas = some (mapa1, arvore1)) :
    mapa1.length = mapa.length ∧
    ∀ i s, mapa[i]? = some s → ∃ s1, mapa1[i]? = some s1 ∧ s1.nome = s.nome ∧
      s1.esquerda = s.esquerda ∧ s1.direita = s.direita ∧
      s1.pista = if i ∈ salasVisitadas mapa inicio arvorePistas entradas then [] else s.pista := by
  cases inicio with
  | none =>
    simp only [explorarSalasComPistas, Option.some.injEq, Prod.mk.injEq] at h
    obtain ⟨hm, _⟩ := h
    subst hm
    refine ⟨rfl, ?_⟩
    intro i s hi
    exact ⟨s, hi, rfl, rfl, rfl, by simp [salasVisitadas]⟩
  | some i0 =>
    simp only [explorarSalasComPistas] at h
    cases hl : explorarLaco { mapa := mapa, atual := i0, arvorePistas := arvorePistas } entradas with
    | none => rw [hl] at h; cases h
    | some e1 =>
      rw [hl] at h
      simp only [Option.some.injEq, Prod.mk.injEq] at h
      obtain ⟨hm, _⟩ := h
      subst hm
      exact explorarLaco_moldura entradas _ e1 hl

/-- Witness for C17: a lone room "H" holding the clue "P", entered once and
left by the exit choice. -/
theorem explorar_frame_witness :
    ([⟨[72], [], none, none⟩] : List Sala).length =
      ([⟨[72], [80], none, none⟩] : List Sala).length ∧
    ∀ i s, ([⟨[72], [80], none, none⟩] : List Sala)[i]? = some s → ∃ s1,
      ([⟨[72], [], none, none⟩] : List Sala)[i]? = some s1 ∧ s1.nome = s.nome ∧
      s1.esquerda = s.esquerda ∧ s1.direita = s.direita ∧
      s1.pista = if i ∈ salasVisitadas [⟨[72], [80], none, none⟩] (some 0) .nulo [some 115]
        then [] else s.pista :=
  explorar_frame [⟨[72], [80], none, none⟩] (some 0) .nulo [some 115]
    [⟨[72], [], none, none⟩] (.no [80] .nulo .nulo) (by decide)

/-- C18: for every key the bucket index `hash_djb2(key) % HASH_TABLE_SIZE` is
below 101, and a table initialised by `iniciarHashTable` and filled by
`inserirHash` calls has 101 slots, so the slot read by `buscarHash` and
written by `inserirHash` exists: the read never falls back on the default and
the write is never dropped. -/
theorem bucket_index_in_bounds (key : CStr) (chamadas : List Chamada)
    (cadeia : List HashEntry) :
    hash_djb2 key % HASH_TABLE_SIZE < 101 ∧
    (inserirChamadas iniciarHashTable chamadas).tabela.length = 101 ∧
    (inserirChamadas iniciarHashTable chamadas).tabela[hash_djb2 key % HASH_TABLE_SIZE]? =
      some ((inserirChamadas iniciarHashTable chamadas).tabela.getD
        (hash_djb2 key % HASH_TABLE_SIZE) []) ∧
    ((inserirChamadas iniciarHashTable chamadas).tabela.set
        (hash_djb2 key % HASH_TABLE_SIZE) cadeia)[hash_djb2 key % HASH_TABLE_SIZE]? =
      some cadeia := by
  have hlt : hash_djb2 key % HASH_TABLE_SIZE < 101 := Nat.mod_lt _ (by decide)
  have hlen : (inserirChamadas iniciarHashTable chamadas).tabela.length = 101 := by
    rw [length_inserirChamadas, length_iniciarHashTable]; rfl
  have hlt2 : hash_djb2 key % HASH_TABLE_SIZE <
      (inserirChamadas iniciarHashTable chamadas).tabela.length := by rw [hlen]; exact hlt
  refine ⟨hlt, hlen, ?_, List.getElem?_set_self hlt2⟩
  rw [List.getD_eq_getElem?_getD, List.getElem?_eq_getElem hlt2]
  rfl

/-- C19: in the game built by `main`, whenever the exploration returns the
clue index is not empty and holds the clue of the entry room, "Bilhete com
endereço"; so `main` never takes its "no clue collected" branch. -/
theorem main_clue_index_nonempty (entradas : List (Option Nat)) (mapa1 : List Sala)
    (arvore1 : PistaNode) (linha : Option CStr)
    (h : explorarSalasComPistas mapaMain (some 0) .nulo entradas = some (mapa1, arvore1)) :
    arvore1 ≠ .nulo ∧
    ([66, 105, 108, 104, 101, 116, 101, 32, 99, 111, 109, 32, 101, 110, 100, 101, 114, 101,
      195, 167, 111] : CStr) ∈ exibirPistasRec arvore1 ∧
    main entradas linha ≠ some .semPistas := by
  simp only [explorarSalasComPistas] at h
  cases hl : explorarLaco { mapa := mapaMain, atual := 0, arvorePistas := .nulo } entradas with
  | none => rw [hl] at h; cases h
  | some e1 =>
    rw [hl] at h
    simp only [Option.some.injEq, Prod.mk.injEq] at h
    obtain ⟨_, ha⟩ := h
    have hr := explorarLaco_resumo entradas inicioMain e1 inicioMain_mem hl
    have hall : ∀ r ∈ resumosMain, pistaBilhete ∈ r.1 := by decide
    have hmem : pistaBilhete ∈ exibirPistasRec arvore1 := by
      rw [← ha]; exact hall _ hr
    have hne : arvore1 ≠ .nulo := by
      intro hn
      rw [hn] at hmem
      simp [exibirPistasRec] at hmem
    refine ⟨hne, hmem, ?_⟩
    have hm : main entradas linha = some (acusar arvore1 htMain linha) := by
      simp only [main, explorarSalasComPistas, hl, ha]
    rw [hm]
    cases arvore1 with
    | nulo => exact absurd rfl hne
    | no p e d =>
      cases linha with
      | none => simp [acusar]
      | some l =>
        simp only [acusar, veredito]
        split_ifs <;> simp

set_option maxRecDepth 100000 in
/-- Witness for C19: the game of `main` left at once by the exit choice. -/
theorem main_clue_index_nonempty_witness :
    (.no pistaBilhete .nulo .nulo : PistaNode) ≠ .nulo ∧
    ([66, 105, 108, 104, 101, 116, 101, 32, 99, 111, 109, 32, 101, 110, 100, 101, 114, 101,
      195, 167, 111] : CStr) ∈ exibirPistasRec (.no pistaBilhete .nulo .nulo) ∧
    main [some 115] (some almeida) ≠ some .semPistas :=
  main_clue_index_nonempty [some 115] (avancar inicioMain [none]).mapa
    (.no pistaBilhete .nulo .nulo) (some almeida) (by decide)

/-- C20: in the game built by `main` (room 3 is Jardim, room 4 is
Biblioteca), whenever the exploration returns and whatever name is accused,
the verdict is "sustained" exactly when the name compares equal to
"Sra. Beatriz" under `strcmpIgnoreCase` and Jardim was entered, or compares
equal to "Carlos" and Biblioteca was entered; the count never exceeds 2, and a
name that compares equal to "Sr. Almeida" is never sustained. -/
theorem main_sustained_iff (entradas : List (Option Nat)) (mapa1 : List Sala)
    (arvore1 : PistaNode) (alvo : CStr)
    (h : explorarSalasComPistas mapaMain (some 0) .nulo entradas = some (mapa1, arvore1)) :
    mapaMain[3]?.map Sala.nome = some [74, 97, 114, 100, 105, 109] ∧
    mapaMain[4]?.map Sala.nome = some [66, 105, 98, 108, 105, 111, 116, 101, 99, 97] ∧
    (veredito (contarPistasParaSuspeito arvore1 htMain (some alvo)) =
        .sustentada (contarPistasParaSuspeito arvore1 htMain (some alvo)) ↔
      (strcmpIgnoreCase [83, 114, 97, 46, 32, 66, 101, 97, 116, 114, 105, 122] alvo = 0 ∧
        3 ∈ salasVisitadas mapaMain (some 0) .nulo entradas) ∨
      (strcmpIgnoreCase [67, 97, 114, 108, 111, 115] alvo = 0 ∧
        4 ∈ salasVisitadas mapaMain (some 0) .nulo entradas)) ∧
    contarPistasParaSuspeito arvore1 htMain (some alvo) ≤ 2 ∧
    (strcmpIgnoreCase [83, 114, 46, 32, 65, 108, 109, 101, 105, 100, 97] alvo = 0 →
      veredito (contarPistasParaSuspeito arvore1 htMain (some alvo)) =
        .naoSustentada (contarPistasParaSuspeito arvore1 htMain (some alvo))) := by
  simp only [explorarSalasComPistas] at h
  cases hl : explorarLaco { mapa := mapaMain, atual := 0, arvorePistas := .nulo } entradas with
  | none => rw [hl] at h; cases h
  | some e1 =>
    rw [hl] at h
    simp only [Option.some.injEq, Prod.mk.injEq] at h
    obtain ⟨_, ha⟩ := h
    have hr := explorarLaco_resumo entradas inicioMain e1 inicioMain_mem hl
    obtain ⟨h2, hle, halm⟩ := resumo_contagem _ hr alvo
    have h3 := main_entrada_iff entradas e1 hl 3 (by decide)
    have h4 := main_entrada_iff entradas e1 hl 4 (by decide)
    have hcount : contarPistasParaSuspeito arvore1 htMain (some alvo) =
        ((resumo e1).1.filter (apontaPara htMain alvo)).length := by
      rw [contar_eq_filter, ← ha]; rfl
    have hv : ∀ n : Nat, (veredito n = .sustentada n ↔ 2 ≤ n) ∧
        (n < 2 → veredito n = .naoSustentada n) := by
      intro n
      unfold veredito
      split_ifs with hn
      · exact ⟨by simp [hn], by omega⟩
      · exact ⟨by simp [hn], fun _ => rfl⟩
    refine ⟨by decide, by decide, ?_, ?_, ?_⟩
    · rw [(hv _).1, hcount, h2, h3, h4]
      rfl
    · rw [hcount]; exact hle
    · intro hal
      exact (hv _).2 (by rw [hcount]; exact halm hal)

set_option maxRecDepth 100000 in
/-- Witness for C20: left, left, exit, and the name "sra. beatriz" accused. -/
theorem main_sustained_iff_witness :
    mapaMain[3]?.map Sala.nome = some [74, 97, 114, 100, 105, 109] ∧
    mapaMain[4]?.map Sala.nome = some [66, 105, 98, 108, 105, 111, 116, 101, 99, 97] ∧
    (veredito (contarPistasParaSuspeito
          (avancar inicioMain [some 101, some 101, none]).arvorePistas htMain
          (some [115, 114, 97, 46, 32, 98, 101, 97, 116, 114, 105, 122])) =
        .sustentada (contarPistasParaSuspeito
          (avancar inicioMain [some 101, some 101, none]).arvorePistas htMain
          (some [115, 114, 97, 46, 32, 98, 101, 97, 116, 114, 105, 122])) ↔
      (strcmpIgnoreCase [83, 114, 97, 46, 32, 66, 101, 97, 116, 114, 105, 122]
          [115, 114, 97, 46, 32, 98, 101, 97, 116, 114, 105, 122] = 0 ∧
        3 ∈ salasVisitadas mapaMain (some 0) .nulo [some 101, some 101, some 115]) ∨
      (strcmpIgnoreCase [67, 97, 114, 108, 111, 115]
          [115, 114, 97, 46, 32, 98, 101, 97, 116, 114, 105, 122] = 0 ∧
        4 ∈ salasVisitadas mapaMain (some 0) .nulo [some 101, some 101, some 115])) ∧
    contarPistasParaSuspeito (avancar inicioMain [some 101, some 101, none]).arvorePistas
        htMain (some [115, 114, 97, 46, 32, 98, 101, 97, 116, 114, 105, 122]) ≤ 2 ∧
    (strcmpIgnoreCase [83, 114, 46, 32, 65, 108, 109, 101, 105, 100, 97]
        [115, 114, 97, 46, 32, 98, 101, 97, 116, 114, 105, 122] = 0 →
      veredito (contarPistasParaSuspeito
          (avancar inicioMain [some 101, some 101, none]).arvorePistas htMain
          (some [115, 114, 97, 46, 32, 98, 101, 97, 116, 114, 105, 122])) =
        .naoSustentada (contarPistasParaSuspeito
          (avancar inicioMain [some 101, some 101, none]).arvorePistas htMain
          (some [115, 114, 97, 46, 32, 98, 101, 97, 116, 114, 105, 122]))) :=
  main_sustained_iff [some 101, some 101, some 115]
    (avancar inicioMain [some 101, some 101, none]).mapa
    (avancar inicioMain [some 101, some 101, none]).arvorePistas
    [115, 114, 97, 46, 32, 98, 101, 97, 116, 114, 105, 122] (by decide)

end DetectiveQuest
